import Mathlib

/-!
# Verification of the eightfold octree engine

Shallow embedding of the arena-backed octree core (`src/tree.rs`, `src/tree/merge.rs`,
`src/tree/iter.rs`), the stable-index containers (`src/vec.rs` and
`lib/stablevec/src/lib.rs`), and the spatial wrapper (`src/spatial.rs`,
`src/spatial/bounding_box.rs`, `src/spatial/octant.rs`).

Modelling conventions:
* Machine indices (`u32`/`usize`) are modelled as `Nat`; no arithmetic in the
  verified scenarios approaches the 32-bit overflow boundary.
* A `StableVec<T>` is modelled by its slot list `List (Option α)`: slot `i`
  holds `some v` exactly when the initialization bit `flags[i]` is set and the
  backing buffer holds `v` at `i`; the list length is the capacity.  The cached
  fields `init_amt` and `farthest_init` are derived from the slots, which is
  what the source maintains them to equal.
* A Rust panic (`unwrap`, `Index` on an uninitialized slot, `unreachable!`) is
  modelled by `none` in an outer `Option`; a value-returned `Error` is an
  `Except.error` inside `some`.  Loops whose termination depends on runtime
  data take a fuel argument and return `none` on exhaustion.
* The `height_cache : RwLock<Option<Idx>>` field of `Octree` is omitted: it
  starts as `None`, and none of the modelled operations (branch, void,
  set_leaf, grow, graft, merge_branch) ever writes `Some` into an empty cache,
  so along every operation sequence considered here every cache-conditional
  block is dead code.
* Floating-point coordinates in the spatial wrapper are modelled as `ℚ`; every
  concrete scenario below uses small dyadic values on which each `f32`
  operation performed by the source (add, sub, halve, compare) is exact.
-/

/-- Decidable equality for `Except`, needed to evaluate operation results. -/
instance decEqExcept {ε : Type u} {α : Type v} [DecidableEq ε] [DecidableEq α] :
    DecidableEq (Except ε α) := fun a b =>
  match a, b with
  | Except.ok x, Except.ok y =>
    if h : x = y then isTrue (by rw [h]) else isFalse (fun he => h (Except.ok.inj he))
  | Except.error x, Except.error y =>
    if h : x = y then isTrue (by rw [h]) else isFalse (fun he => h (Except.error.inj he))
  | Except.ok _, Except.error _ => isFalse (fun he => Except.noConfusion he)
  | Except.error _, Except.ok _ => isFalse (fun he => Except.noConfusion he)

namespace Eightfold

/-- Model of `ProxyData` (src/tree/proxy.rs): the tagged variant of a node. -/
inductive ProxyData where
  | void : ProxyData
  | leaf (idx : Nat) : ProxyData
  | branch (idx : Nat) : ProxyData
deriving DecidableEq, Repr

/-- Model of `Proxy` (src/tree/proxy.rs): one record per logical node. -/
structure Proxy where
  parent : Nat
  data : ProxyData
deriving DecidableEq, Repr

/-- Model of the octree error enum (src/tree/error.rs). -/
inductive TreeError where
  | noParent : TreeError
  | childOutOfRange (o : Nat) : TreeError
  | invalidIndex (i : Nat) : TreeError
  | notABranch (i : Nat) : TreeError
  | notALeaf (i : Nat) : TreeError
  | notAVoid (i : Nat) : TreeError
  | noChildren (i : Nat) : TreeError
  | noLeafs (i : Nat) : TreeError
  | voxelOutOfGrid (size x y z : Nat) : TreeError
  | childCollision (i : Nat) : TreeError
  | branchCollision : TreeError
deriving DecidableEq, Repr

/-! ## `StableVec` of src/vec.rs (the container the tree owns)

`SV α` models `crate::vec::StableVec<T>`: `slots[i] = some v` iff `flags[i]`
is set and the buffer holds `v` at `i`; `slots.length` is `cap` (the source
keeps `flags.len()` equal to the allocation length, per the `from_parts`
invariant). -/

structure SV (α : Type) where
  slots : List (Option α)
deriving DecidableEq, Repr

namespace SV

/-- `StableVec::new` / `default`. -/
def new {α} : SV α := ⟨[]⟩

/-- Read a slot: `get(idx)` — `None` when the slot is uninitialized or out of range. -/
def get {α} (v : SV α) (i : Nat) : Option α := (v.slots[i]?).getD none

/-- `is_init(index)`: `flags.get(index).map(|b| *b).unwrap_or(false)`. -/
def isInit {α} (v : SV α) (i : Nat) : Bool := (v.get i).isSome

/-- The capacity `cap`. -/
def cap {α} (v : SV α) : Nat := v.slots.length

/-- `len_init` / `init_amt`: the number of initialized slots. -/
def lenInit {α} (v : SV α) : Nat := (v.slots.filter Option.isSome).length

/-- `spare_capacity()`: `cap - init_amt`. -/
def spare {α} (v : SV α) : Nat := v.cap - v.lenInit

/-- `flags.first_zero()`: index of the lowest uninitialized slot. -/
def firstZero {α} (v : SV α) : Option Nat := v.slots.findIdx? Option.isNone

/-- `farthest_init`: index of the initialized slot farthest from the start. -/
def farthestInit {α} (v : SV α) : Option Nat :=
  ((List.range v.cap).filter (fun i => (v.get i).isSome)).getLast?

/-- Overwrite slot `i` (no-op when out of range; callers stay in range). -/
def setSlot {α} (v : SV α) (i : Nat) (x : Option α) : SV α := ⟨v.slots.set i x⟩

/-- `reserve(amt)`: grow the allocation by `max(8, amt) - spare_capacity`,
extending the slot area with uninitialized entries (no-op when the spare
capacity already suffices). -/
def reserve {α} (v : SV α) (amt : Nat) : SV α :=
  if max 8 amt ≤ v.spare then v
  else ⟨v.slots ++ List.replicate (max 8 amt - v.spare) none⟩

/-- `reserve_exact(amt)`: additive growth by `amt - spare_capacity`. -/
def reserveExact {α} (v : SV α) (amt : Nat) : SV α :=
  if amt ≤ v.spare then v
  else ⟨v.slots ++ List.replicate (amt - v.spare) none⟩

/-- `push(data)`: when no spare capacity exists, the new slot is at `cap` after
growing; otherwise the lowest zero flag is used.  Returns (new state, index). -/
def push {α} (v : SV α) (x : α) : SV α × Nat :=
  if v.spare = 0 then
    let idx := v.cap
    ((v.reserve 1).setSlot idx (some x), idx)
  else
    let idx := v.firstZero.getD v.cap
    (v.setSlot idx (some x), idx)

/-- `push_iter(...).collect()`: sequential pushes, returning indices in order. -/
def pushList {α} (v : SV α) : List α → SV α × List Nat
  | [] => (v, [])
  | x :: rest =>
    let p := v.push x
    let q := p.1.pushList rest
    (q.1, p.2 :: q.2)

/-- `remove(index)`: uninitialize the slot, returning the prior value. -/
def remove {α} (v : SV α) (i : Nat) : SV α × Option α :=
  match v.get i with
  | none => (v, none)
  | some x => (v.setSlot i none, some x)

/-- `replace(index, data)`: out of range returns `None` without writing;
otherwise write and return the displaced value if the slot was initialized. -/
def replace {α} (v : SV α) (i : Nat) (x : α) : SV α × Option α :=
  if i ≥ v.cap then (v, none)
  else (v.setSlot i (some x), v.get i)

/-- `extend_from_other(other)`: iterate `0..=other.farthest_init`, pushing each
initialized slot of `other` and recording `(other_idx, new_idx)`. -/
def extendFromOther {α} (v o : SV α) : SV α × List (Nat × Nat) :=
  match o.farthestInit with
  | none => (v, [])
  | some f =>
    (List.range (f + 1)).foldl
      (fun acc i =>
        match o.get i with
        | none => acc
        | some x =>
          let p := acc.1.push x
          (p.1, acc.2 ++ [(i, p.2)]))
      (v.reserveExact o.lenInit, [])

end SV

/-! ## `StableVec` of lib/stablevec (the extracted crate)

`LVec α` models `stablevec::StableVec<T>` the same way.  `minCap` stands for
the type-derived constant `MIN_NON_ZERO_CAP` (8 for 1-byte `T`, 4 for `T` up
to 1 KiB, 1 otherwise). -/

structure LVec (α : Type) where
  slots : List (Option α)
deriving DecidableEq, Repr

namespace LVec

/-- `StableVec::new`. -/
def new {α} : LVec α := ⟨[]⟩

def get {α} (v : LVec α) (i : Nat) : Option α := (v.slots[i]?).getD none

/-- `capacity()`. -/
def capacity {α} (v : LVec α) : Nat := v.slots.length

/-- `len_init()` (the `count` field). -/
def count {α} (v : LVec α) : Nat := (v.slots.filter Option.isSome).length

/-- `spare_capacity()`. -/
def spare {α} (v : LVec α) : Nat := v.capacity - v.count

/-- `flags.first_one()`: index of the lowest **initialized** slot. -/
def firstOne {α} (v : LVec α) : Option Nat := v.slots.findIdx? Option.isSome

/-- `flags.last_one()`: index of the highest initialized slot. -/
def lastOne {α} (v : LVec α) : Option Nat :=
  ((List.range v.capacity).filter (fun i => (v.get i).isSome)).getLast?

def setSlot {α} (v : LVec α) (i : Nat) (x : Option α) : LVec α := ⟨v.slots.set i x⟩

/-- `grow_amortized(additional)`: new capacity
`max (cap + additional) (max (count * 2) MIN_NON_ZERO_CAP)`; `expand_flags`
pads the flag bitmap with zeros to the new capacity. -/
def growAmortized {α} (minCap : Nat) (v : LVec α) (additional : Nat) : LVec α :=
  let newCap := max (v.capacity + additional) (max (v.count * 2) minCap)
  ⟨v.slots ++ List.replicate (newCap - v.capacity) none⟩

/-- `grow_exact(additional)`. -/
def growExact {α} (v : LVec α) (additional : Nat) : LVec α :=
  ⟨v.slots ++ List.replicate additional none⟩

/-- `reserve_exact(additional)`. -/
def reserveExact {α} (v : LVec α) (additional : Nat) : LVec α :=
  if additional ≤ v.spare then v else v.growExact (additional - v.spare)

/-- `push(data)` as written in lib/stablevec/src/lib.rs: the target slot is
`flags.first_one()` (the lowest **initialized** slot) when one exists, else
the last slot of the freshly grown buffer. -/
def push {α} (minCap : Nat) (v : LVec α) (x : α) : LVec α × Nat :=
  match v.firstOne with
  | some i => (v.setSlot i (some x), i)
  | none =>
    let v' := v.growAmortized minCap 1
    (v'.setSlot (v'.capacity - 1) (some x), v'.capacity - 1)

/-- `extend_from_other(other)` as written in lib/stablevec/src/lib.rs: the loop
bound is `self.flags.last_one()` (not `other`'s); an empty `self` returns the
empty map at once.  Indexing `other.flags[i]` out of range panics (`none`). -/
def extendFromOther {α} (minCap : Nat) (v o : LVec α) :
    Option (LVec α × List (Nat × Nat)) :=
  match v.lastOne with
  | none => some (v, [])
  | some l =>
    (List.range (l + 1)).foldl
      (fun acc i =>
        match acc with
        | none => none
        | some st =>
          match o.slots[i]? with
          | none => none
          | some none => some st
          | some (some x) =>
            let p := st.1.push minCap x
            some (p.1, st.2 ++ [(i, p.2)]))
      (some (v.reserveExact o.count, []))

end LVec

/-! ## Octant and NodePoint (src/geom/octant.rs) -/

/-- `Octant::new(i, j, k)`: packs three booleans as `(i<<2)|(j<<1)|k`. -/
def octNew (i j k : Bool) : Nat :=
  (if i then 4 else 0) + (if j then 2 else 0) + (if k then 1 else 0)

/-- `Octant::not`: XOR with `0b111`. -/
def octNot (o : Nat) : Nat := o ^^^ 7

/-- `Octant::i()`: the bit-masked magnitude `o & 0b100` (4 or 0, not normalized). -/
def octI (o : Nat) : Nat := o &&& 4

/-- `Octant::j()`: `o & 0b010`. -/
def octJ (o : Nat) : Nat := o &&& 2

/-- `Octant::k()`: `o & 0b001`. -/
def octK (o : Nat) : Nat := o &&& 1

/-- Model of `NodePoint`: the depth-`d` grid coordinate of a node. -/
structure NodePoint where
  x : Nat
  y : Nat
  z : Nat
  d : Nat
deriving DecidableEq, Repr

/-- `NodePoint + Octant` (src/geom/octant.rs): adds the bit-magnitude
components `i()/j()/k()` (4/2/1) to the coordinates and 1 to the depth. -/
def NodePoint.addOct (np : NodePoint) (o : Nat) : NodePoint :=
  ⟨np.x + octI o, np.y + octJ o, np.z + octK o, np.d + 1⟩

/-! ## The Octree core (src/tree.rs) -/

/-- Model of `Octree<T, Idx>`: three arenas plus the root index.  (The unused
`height_cache` is omitted; see the module comment.) -/
structure Octree (T : Type) where
  proxies : SV Proxy
  branchData : SV (List Nat)
  leafData : SV T
  root : Nat
deriving DecidableEq, Repr

namespace Octree

/-- `Octree::new()`: one Void root proxy at index 0, empty branch/leaf arenas. -/
def new {T} : Octree T := ⟨⟨[some ⟨0, ProxyData.void⟩]⟩, SV.new, SV.new, 0⟩

/-- `self.proxies[i].data = d` (`IndexMut` panics on an uninitialized slot). -/
def setProxyData {T} (o : Octree T) (i : Nat) (d : ProxyData) : Option (Octree T) :=
  match o.proxies.get i with
  | none => none
  | some p => some { o with proxies := o.proxies.setSlot i (some { p with data := d }) }

/-- `self.proxies[i].parent = q` (`IndexMut` panics on an uninitialized slot). -/
def setProxyParent {T} (o : Octree T) (i : Nat) (q : Nat) : Option (Octree T) :=
  match o.proxies.get i with
  | none => none
  | some p => some { o with proxies := o.proxies.setSlot i (some { p with parent := q }) }

/-- The match on `self.proxies[target].data` inside `Octree::branch`
(src/tree.rs:131): on `Branch` return the existing record; on `Leaf` fail
with `BranchCollision`; on `Void` push 8 child proxies with
`parent = target`, push them as a record, and set the target's data. -/
def branchOnData {T} (o : Octree T) (target : Nat) (p : Proxy) :
    Option (Octree T × Except TreeError (List Nat)) :=
  match p.data with
  | ProxyData.branch c =>
    match o.branchData.get c with
    | none => none
    | some ch => some (o, Except.ok ch)
  | ProxyData.leaf _ => some (o, Except.error TreeError.branchCollision)
  | ProxyData.void =>
    let pp := o.proxies.pushList (List.replicate 8 ⟨target, ProxyData.void⟩)
    let pb := o.branchData.push pp.2
    match ({ o with proxies := pp.1, branchData := pb.1 }).setProxyData target
        (ProxyData.branch pb.2) with
    | none => none
    | some o' => some (o', Except.ok pp.2)

/-- `Octree::branch(target)` (src/tree.rs:125): the initial
`self.proxies[target]` lookup (panicking on an uninitialized slot), then the
match on its data. -/
def branch {T} (o : Octree T) (target : Nat) :
    Option (Octree T × Except TreeError (List Nat)) :=
  match o.proxies.get target with
  | none => none
  | some p => branchOnData o target p

/-- Worker for `flatten_branch`'s `while let Some(c_idx) = to_remove.pop()`
loop.  The Rust `Vec` is popped from its end; the Lean list head models that
end, so `extend_from_slice(children)` conses the children in reverse. -/
def flattenGo {T} :
    Nat → SV Proxy → SV (List Nat) → SV T → List Nat → List T →
    Option (SV Proxy × SV (List Nat) × SV T × List T)
  | 0, _, _, _, _, _ => none
  | _ + 1, ps, bd, ld, [], res => some (ps, bd, ld, res)
  | fuel + 1, ps, bd, ld, c :: rest, res =>
    match ps.remove c with
    | (_, none) => none
    | (ps', some pr) =>
      match pr.data with
      | ProxyData.void => flattenGo fuel ps' bd ld rest res
      | ProxyData.leaf t =>
        match ld.remove t with
        | (_, none) => none
        | (ld', some x) => flattenGo fuel ps' bd ld' rest (res ++ [x])
      | ProxyData.branch ci =>
        match bd.remove ci with
        | (_, none) => none
        | (bd', some kids) => flattenGo fuel ps' bd' ld (kids.reverse ++ rest) res

/-- `Octree::flatten_branch(target, children_idx, new_data)` (src/tree.rs:157):
set the target's data, remove the branch record, then drain the subtree. -/
def flattenBranch {T} (o : Octree T) (target childrenIdx : Nat) (newData : ProxyData)
    (fuel : Nat) : Option (Octree T × List T) :=
  match o.setProxyData target newData with
  | none => none
  | some o1 =>
    match o1.branchData.remove childrenIdx with
    | (_, none) => none
    | (bd, some kids) =>
      match flattenGo fuel o1.proxies bd o1.leafData kids.reverse [] with
      | none => none
      | some (ps, bd', ld, res) =>
        some ({ o1 with proxies := ps, branchData := bd', leafData := ld }, res)

/-- `Octree::void(target)` (src/tree.rs:194). -/
def void {T} (o : Octree T) (target : Nat) (fuel : Nat) : Option (Octree T × List T) :=
  match o.proxies.get target with
  | none => none
  | some p =>
    match p.data with
    | ProxyData.void => some (o, [])
    | ProxyData.leaf l =>
      match o.setProxyData target ProxyData.void with
      | none => none
      | some o1 =>
        match o1.leafData.remove l with
        | (_, none) => none
        | (ld, some x) => some ({ o1 with leafData := ld }, [x])
    | ProxyData.branch c => o.flattenBranch target c ProxyData.void fuel

/-- `Octree::set_leaf(target, data)` (src/tree.rs:208). -/
def setLeaf {T} (o : Octree T) (target : Nat) (x : T) (fuel : Nat) :
    Option (Octree T × List T) :=
  match o.proxies.get target with
  | none => none
  | some p =>
    match p.data with
    | ProxyData.leaf l =>
      match o.leafData.replace l x with
      | (_, none) => none
      | (ld, some old) => some ({ o with leafData := ld }, [old])
    | ProxyData.void =>
      let pl := o.leafData.push x
      match o.setProxyData target (ProxyData.leaf pl.2) with
      | none => none
      | some o1 => some ({ o1 with leafData := pl.1 }, [])
    | ProxyData.branch ch =>
      match o.flattenBranch target ch ProxyData.void fuel with
      | none => none
      | some (o1, res) =>
        let pl := o1.leafData.push x
        match o1.setProxyData target (ProxyData.leaf pl.2) with
        | none => none
        | some o2 => some ({ o2 with leafData := pl.1 }, res)

/-- `Octree::grow(oct)` (src/tree.rs:231): reserve 8 proxy slots, push 7 Void
proxies with `parent = self.root`, insert the old root at position `oct` of
the children array, push the record, push the new root proxy — whose `parent`
field is `self.root`, i.e. still the *old* root — and finally rewrite the old
root's parent to the new root index. -/
def grow {T} (o : Octree T) (oct : Nat) : Option (Octree T × Nat) :=
  let oldRoot := o.root
  let ps0 := o.proxies.reserve 8
  let p7 := ps0.pushList (List.replicate 7 ⟨o.root, ProxyData.void⟩)
  if oct ≤ 7 then
    let children := p7.2.insertIdx oct oldRoot
    let pb := o.branchData.push children
    let pr := p7.1.push ⟨o.root, ProxyData.branch pb.2⟩
    match pr.1.get oldRoot with
    | none => none
    | some oldp =>
      some ({ proxies := pr.1.setSlot oldRoot (some { oldp with parent := pr.2 }),
              branchData := pb.1, leafData := o.leafData, root := pr.2 }, pr.2)
  else none

end Octree

/-- `Octree::depth_of_unchecked(node)` (src/tree.rs:100): walk the parent
chain until a self-parenting node.  The source loop does not terminate when
the chain cycles; fuel exhaustion (`none`) models that divergence. -/
def Octree.depthOf? {T} (o : Octree T) : Nat → Nat → Option Nat
  | 0, _ => none
  | fuel + 1, node =>
    match o.proxies.get node with
    | none => none
    | some p =>
      if p.parent = node then some 0
      else (o.depthOf? fuel p.parent).map (· + 1)

/-- Descent loop of `Octree::node_at` (src/tree.rs:329). -/
def nodeAtGo {T} (o : Octree T) (pspx pspy pspz : Nat) :
    Nat → Nat → Proxy → Nat → Option Nat
  | 0, _, _, _ => none
  | fuel + 1, idx, vox, s2 =>
    match vox.data with
    | ProxyData.branch chIdx =>
      if s2 = 0 then some idx
      else
        match o.branchData.get chIdx with
        | none => none
        | some children =>
          let oct := octNew (decide (pspx > s2)) (decide (pspy > s2)) (decide (pspz > s2))
          match children[oct]? with
          | none => none
          | some idx' =>
            match o.proxies.get idx' with
            | none => none
            | some vox' => nodeAtGo o pspx pspy pspz fuel idx' vox' (s2 / 2)
    | _ => some idx

/-- `Octree::node_at(p)` (src/tree.rs:314): `idx` starts at zero, the target
is rescaled to the grid of size `2^d`, and the descent halves the half-size
`s2` each step, choosing the child by strict `>` against `s2`. -/
def Octree.nodeAt {T} (o : Octree T) (np : NodePoint) (fuel : Nat) : Option Nat :=
  match o.proxies.get o.root with
  | none => none
  | some vox =>
    let ps := 2 ^ np.d
    nodeAtGo o (np.x * ps) (np.y * ps) (np.z * ps) fuel 0 vox (ps / 2)

/-- Parent-chain walk of `Octree::node_point_of_unchecked` (src/tree.rs:427).
At each step the source scans the parent's branch record with
`.find(|&c| c == index)` and wraps the *matched value* (cast to `u8`) in
`Octant` — the position of the match is not used — then accumulates the
bit-masked magnitudes `i()/j()/k()`. -/
def nodePointOfGo {T} (o : Octree T) :
    Nat → Nat → Nat → Nat → Nat → Nat → Option NodePoint
  | 0, _, _, _, _, _ => none
  | fuel + 1, index, x, y, z, d =>
    match o.proxies.get index with
    | none => none
    | some p =>
      if p.parent = index then some ⟨x, y, z, d⟩
      else
        match o.proxies.get p.parent with
        | none => none
        | some pp =>
          match pp.data with
          | ProxyData.branch bIdx =>
            match o.branchData.get bIdx with
            | none => none
            | some children =>
              match children.find? (fun c => c = index) with
              | none => none
              | some v =>
                let oct := v % 256
                nodePointOfGo o fuel p.parent (x + octI oct) (y + octJ oct)
                  (z + octK oct) (d + 1)
          | _ => none

/-- `Octree::node_point_of_unchecked(index)`. -/
def Octree.nodePointOf {T} (o : Octree T) (index : Nat) (fuel : Nat) : Option NodePoint :=
  nodePointOfGo o fuel index 0 0 0 0

/-! ## merge_branch (src/tree/merge.rs) -/

/-- The child loop of `internal_merge_branch`: remove each child proxy in
octant order; skip Voids; remove and fold leaf payloads with the
`leaf_merge` combine `m`; recurse into sub-branches (removing their record
first) and fold any produced value. -/
def mergeGo {T} (m : T → T → T) :
    Nat → Octree T → List Nat → Option T → Option (Octree T × Option T)
  | 0, _, _, _ => none
  | _ + 1, o, [], res => some (o, res)
  | fuel + 1, o, c :: rest, res =>
    match o.proxies.remove c with
    | (_, none) => none
    | (ps, some pr) =>
      let o1 : Octree T := { o with proxies := ps }
      match pr.data with
      | ProxyData.void => mergeGo m fuel o1 rest res
      | ProxyData.leaf l =>
        match o1.leafData.remove l with
        | (_, none) => none
        | (ld, some t) =>
          mergeGo m fuel { o1 with leafData := ld } rest
            (some (match res with | some r => m r t | none => t))
      | ProxyData.branch b =>
        match o1.branchData.remove b with
        | (_, none) => none
        | (bd, some kids) =>
          match mergeGo m fuel { o1 with branchData := bd } kids none with
          | none => none
          | some (o2, none) => mergeGo m fuel o2 rest res
          | some (o2, some d) =>
            mergeGo m fuel o2 rest
              (some (match res with | some r => m r d | none => d))

/-- `Octree::internal_merge_branch(children_idx)` (src/tree/merge.rs:14):
remove the branch record, then drain its children. -/
def Octree.internalMergeBranch {T} (m : T → T → T) (o : Octree T) (childrenIdx : Nat)
    (fuel : Nat) : Option (Octree T × Option T) :=
  match o.branchData.remove childrenIdx with
  | (_, none) => none
  | (bd, some kids) => mergeGo m fuel { o with branchData := bd } kids none

/-- `Octree::merge_branch(branch_idx)` (src/tree/merge.rs:52): on success the
merged value becomes a new leaf replacing the branch; when the drained
subtree produced nothing the target's data is set to Void and `NoLeafs` is
returned. -/
def Octree.mergeBranch {T} (m : T → T → T) (o : Octree T) (bIdx : Nat) (fuel : Nat) :
    Option (Octree T × Except TreeError T) :=
  match o.proxies.get bIdx with
  | none => some (o, Except.error (TreeError.invalidIndex bIdx))
  | some p =>
    match p.data with
    | ProxyData.branch chIdx =>
      match o.internalMergeBranch m chIdx fuel with
      | none => none
      | some (o1, some r) =>
        let pl := o1.leafData.push r
        match ({ o1 with leafData := pl.1 }).setProxyData bIdx (ProxyData.leaf pl.2) with
        | none => none
        | some o2 => some (o2, Except.ok r)
      | some (o1, none) =>
        match o1.setProxyData bIdx ProxyData.void with
        | none => none
        | some o2 => some (o2, Except.error (TreeError.noLeafs bIdx))
    | _ => some (o, Except.error (TreeError.notABranch bIdx))

/-- Read-only companion of `mergeGo`: the proxy indices and branch-record
indices of the subtree hanging below a children list, and whether any leaf
occurs in it.  Traverses exactly the nodes `internal_merge_branch` visits. -/
def scanGo {T} (o : Octree T) : Nat → List Nat → Option (List Nat × List Nat × Bool)
  | 0, _ => none
  | _ + 1, [] => some ([], [], false)
  | fuel + 1, c :: rest =>
    match o.proxies.get c with
    | none => none
    | some pr =>
      match pr.data with
      | ProxyData.void =>
        (scanGo o fuel rest).map (fun r => (c :: r.1, r.2.1, r.2.2))
      | ProxyData.leaf _ =>
        (scanGo o fuel rest).map (fun r => (c :: r.1, r.2.1, true))
      | ProxyData.branch b =>
        match o.branchData.get b with
        | none => none
        | some kids =>
          match scanGo o fuel kids with
          | none => none
          | some (pk, bk, hk) =>
            match scanGo o fuel rest with
            | none => none
            | some (ps, bs, hl) => some (c :: (pk ++ ps), b :: (bk ++ bs), hk || hl)

/-! ## graft (src/tree.rs:475) -/

/-- `HashMap<usize, usize>` lookup with the `map[&key]` panic on a missing
key modelled by `none`. -/
def lookupMap (m : List (Nat × Nat)) (k : Nat) : Option Nat :=
  (m.find? (fun e => e.1 = k)).map (·.2)

/-- Rewrite the entries of a grafted branch record through the proxy map,
collecting the stack frames `(old_index, proxy_at_old_index)` the source
pushes during the same loop. -/
def graftKids {T} (o : Octree T) (swapsP : List (Nat × Nat)) :
    List Nat → Option (List Nat × List (Nat × Proxy))
  | [] => some ([], [])
  | ci :: rest =>
    match lookupMap swapsP ci with
    | none => none
    | some newCi =>
      match o.proxies.get ci with
      | none => none
      | some pci =>
        match graftKids o swapsP rest with
        | none => none
        | some (nks, frames) => some (newCi :: nks, (ci, pci) :: frames)

/-- The `while let Some((i, p, _)) = node_stack.pop()` loop of
`graft_unchecked`.  The Lean list head models the `Vec` end (its pop side);
children frames are pushed in octant order, so the last child is popped
first. -/
def graftGo {T} (swapsP swapsL swapsB : List (Nat × Nat)) (node : Nat) :
    Nat → Octree T → List (Nat × Proxy) → Option (Octree T)
  | 0, _, _ => none
  | _ + 1, o, [] => some o
  | fuel + 1, o, (i, p) :: rest =>
    let step1 : Option (Octree T) :=
      if i = node then some o
      else
        match lookupMap swapsP p.parent with
        | none => none
        | some q => o.setProxyParent i q
    match step1 with
    | none => none
    | some o1 =>
      match p.data with
      | ProxyData.void => graftGo swapsP swapsL swapsB node fuel o1 rest
      | ProxyData.leaf l =>
        match lookupMap swapsL l with
        | none => none
        | some l' =>
          match o1.setProxyData i (ProxyData.leaf l') with
          | none => none
          | some o2 => graftGo swapsP swapsL swapsB node fuel o2 rest
      | ProxyData.branch b =>
        match lookupMap swapsB b with
        | none => none
        | some cIdx =>
          match o1.branchData.get cIdx with
          | none => none
          | some kids =>
            match graftKids o1 swapsP kids with
            | none => none
            | some (newKids, frames) =>
              let o2 : Octree T :=
                { o1 with branchData := o1.branchData.setSlot cIdx (some newKids) }
              match o2.setProxyData i (ProxyData.branch cIdx) with
              | none => none
              | some o3 =>
                graftGo swapsP swapsL swapsB node fuel o3 (frames.reverse ++ rest)

/-- `Octree::graft_unchecked(other, node)` (src/tree.rs:475): remove the other
tree's root and write its data into `node`, move the three arenas into `self`
recording the index translations, add the extra `other.root → node` entry to
the proxy map, and run the rewriting DFS from `node`. -/
def Octree.graftUnchecked {T} (self other : Octree T) (node : Nat) (fuel : Nat) :
    Option (Octree T) :=
  match other.proxies.remove other.root with
  | (_, none) => none
  | (ops, some oRoot) =>
    match self.setProxyData node oRoot.data with
    | none => none
    | some s1 =>
      let eL := s1.leafData.extendFromOther other.leafData
      let eB := s1.branchData.extendFromOther other.branchData
      let eP := s1.proxies.extendFromOther ops
      let swapsP := (other.root, node) :: eP.2
      let s2 : Octree T :=
        { proxies := eP.1, branchData := eB.1, leafData := eL.1, root := s1.root }
      match s2.depthOf? fuel node with
      | none => none
      | some _ =>
        match s2.proxies.get node with
        | none => none
        | some pn => graftGo swapsP eL.2 eB.2 node fuel s2 [(node, pn)]

/-- `Octree::graft(other, node)` (src/tree.rs:538): `InvalidIndex` when the
slot is uninitialized; `NotAVoid` unless the target's data is a `Branch`
(the source checks for `Branch` but names the error `NotAVoid`). -/
def Octree.graft {T} (self other : Octree T) (node : Nat) (fuel : Nat) :
    Option (Octree T × Except TreeError Unit) :=
  match self.proxies.get node with
  | none => some (self, Except.error (TreeError.invalidIndex node))
  | some p =>
    match p.data with
    | ProxyData.branch _ =>
      match self.graftUnchecked other node fuel with
      | none => none
      | some s' => some (s', Except.ok ())
    | _ => some (self, Except.error (TreeError.notAVoid node))

/-! ## The depth-first leaf iterator (src/tree/iter.rs) -/

/-- One `(proxy, next_child_octant, node_point)` frame of `LeafIter`. -/
structure IterFrame where
  prox : Proxy
  oct : Nat
  np : NodePoint
deriving DecidableEq, Repr

/-- The `while let Some((prox, oct, np)) = self.curr_node` loop of
`LeafIter::next`, iterated to exhaustion and collecting every yielded item.
The Lean list head models the `Vec` end of `node_stack`. -/
def leafIterGo {T} (o : Octree T) :
    Nat → Option IterFrame → List IterFrame → List (T × NodePoint) →
    Option (List (T × NodePoint))
  | 0, _, _, _ => none
  | _ + 1, none, _, acc => some acc
  | fuel + 1, some f, stack, acc =>
    match f.prox.data with
    | ProxyData.void => leafIterGo o fuel stack.head? stack.tail acc
    | ProxyData.leaf lIdx =>
      match o.leafData.get lIdx with
      | none => none
      | some t => leafIterGo o fuel stack.head? stack.tail (acc ++ [(t, f.np)])
    | ProxyData.branch chIdx =>
      match o.branchData.get chIdx with
      | none => none
      | some children =>
        match children[f.oct]? with
        | none => none
        | some ci =>
          match o.proxies.get ci with
          | none => none
          | some cprox =>
            let stack' := if f.oct < 7 then ⟨f.prox, f.oct + 1, f.np⟩ :: stack else stack
            leafIterGo o fuel (some ⟨cprox, 0, f.np.addOct f.oct⟩) stack' acc

/-- `leaf_dfi()` (src/tree/slice.rs:118) run to exhaustion: the list of
`(payload, node_point)` pairs the iterator yields, in order. -/
def Octree.leafDfi {T} (o : Octree T) (fuel : Nat) : Option (List (T × NodePoint)) :=
  match o.proxies.get o.root with
  | none => none
  | some rp => leafIterGo o fuel (some ⟨rp, 0, ⟨0, 0, 0, 0⟩⟩) [] []

/-! ## The spatial wrapper (src/spatial.rs, src/spatial/bounding_box.rs,
src/spatial/octant.rs)

Real coordinates are modelled as `ℚ`; every scenario below stays on small
dyadic values where `f32` addition, subtraction, halving and comparison are
exact. -/

/-- A 3-component real point (`Point3<Real>` / `Vector3<Real>`). -/
structure QPoint where
  x : ℚ
  y : ℚ
  z : ℚ
deriving DecidableEq, Repr

/-- `Aabb<Real>` (src/spatial/bounding_box.rs). -/
structure Aabb where
  mins : QPoint
  maxs : QPoint
deriving DecidableEq, Repr

namespace Aabb

/-- `contains(p)`: componentwise `mins ≤ p ≤ maxs`, inclusive. -/
def contains (b : Aabb) (p : QPoint) : Bool :=
  decide (b.mins.x ≤ p.x) && decide (b.mins.y ≤ p.y) && decide (b.mins.z ≤ p.z) &&
  decide (p.x ≤ b.maxs.x) && decide (p.y ≤ b.maxs.y) && decide (p.z ≤ b.maxs.z)

/-- `center()`: componentwise midpoint. -/
def center (b : Aabb) : QPoint :=
  ⟨(b.mins.x + b.maxs.x) / 2, (b.mins.y + b.maxs.y) / 2, (b.mins.z + b.maxs.z) / 2⟩

end Aabb

/-- `Octant::from_center(c, p)` (src/spatial/octant.rs:12):
`Octant::new(p.x > c.x, p.y > c.y, p.z > c.z)` — strict comparisons, ties go
to the lower octant. -/
def octFromCenter (c p : QPoint) : Nat :=
  octNew (decide (p.x > c.x)) (decide (p.y > c.y)) (decide (p.z > c.z))

namespace Aabb

/-- `octant_of(p)`. -/
def octantOf (b : Aabb) (p : QPoint) : Nat := octFromCenter b.center p

/-- `parent(oct)`: the double-size box having `self` at octant `oct`.  The
source's `unreachable!()` arm for octants above 7 is never taken by any
caller; it is modelled as the identity. -/
def parent (b : Aabb) (oct : Nat) : Aabb :=
  let i := b.mins
  let a := b.maxs
  let v : QPoint := ⟨a.x - i.x, a.y - i.y, a.z - i.z⟩
  match oct with
  | 0 => ⟨i, ⟨a.x + v.x, a.y + v.y, a.z + v.z⟩⟩
  | 1 => ⟨⟨i.x, i.y, i.z - v.z⟩, ⟨a.x + v.x, a.y + v.y, a.z⟩⟩
  | 2 => ⟨⟨i.x, i.y - v.y, i.z⟩, ⟨a.x + v.x, a.y, a.z + v.z⟩⟩
  | 3 => ⟨⟨i.x, i.y - v.y, i.z - v.z⟩, ⟨a.x + v.x, a.y, a.z⟩⟩
  | 4 => ⟨⟨i.x - v.x, i.y, i.z⟩, ⟨a.x, a.y + v.y, a.z + v.z⟩⟩
  | 5 => ⟨⟨i.x - v.x, i.y, i.z - v.z⟩, ⟨a.x, a.y + v.y, a.z⟩⟩
  | 6 => ⟨⟨i.x - v.x, i.y - v.y, i.z⟩, ⟨a.x, a.y, a.z + v.z⟩⟩
  | 7 => ⟨⟨i.x - v.x, i.y - v.y, i.z - v.z⟩, a⟩
  | _ => b

/-- `child(oct)`: the half-size box at octant `oct` of `self`. -/
def child (b : Aabb) (oct : Nat) : Aabb :=
  let i := b.mins
  let a := b.maxs
  let c := b.center
  match oct with
  | 0 => ⟨i, c⟩
  | 1 => ⟨⟨i.x, i.y, c.z⟩, ⟨c.x, c.y, a.z⟩⟩
  | 2 => ⟨⟨i.x, c.y, i.z⟩, ⟨c.x, a.y, c.z⟩⟩
  | 3 => ⟨⟨i.x, c.y, c.z⟩, ⟨c.x, a.y, a.z⟩⟩
  | 4 => ⟨⟨c.x, i.y, i.z⟩, ⟨a.x, c.y, c.z⟩⟩
  | 5 => ⟨⟨c.x, i.y, c.z⟩, ⟨a.x, c.y, a.z⟩⟩
  | 6 => ⟨⟨c.x, c.y, i.z⟩, ⟨a.x, a.y, c.z⟩⟩
  | 7 => ⟨c, a⟩
  | _ => b

/-- `child_containing_unchecked(p)`: `(octant_of(p), child(octant_of(p)))`. -/
def childContainingUnchecked (b : Aabb) (p : QPoint) : Nat × Aabb :=
  let oct := b.octantOf p
  (oct, b.child oct)

end Aabb

/-- The spatial error enum (src/spatial/error.rs). -/
inductive SpatialError where
  | octree (e : TreeError) : SpatialError
  | pointOutOfBounds (bb : Aabb) (p : QPoint) : SpatialError
deriving DecidableEq, Repr

/-- Model of `VoxelOctree<T, Real, Idx>` (src/spatial.rs). -/
structure VoxelOctree (T : Type) where
  base : Octree T
  height : Nat
  voxelSize : QPoint
  aabb : Aabb
deriving DecidableEq, Repr

namespace VoxelOctree

/-- `VoxelOctree::new(voxel_size)`: height 0, `aabb = (0, voxel_size)`. -/
def new {T} (voxelSize : QPoint) : VoxelOctree T :=
  { base := Octree.new, height := 0, voxelSize := voxelSize,
    aabb := ⟨⟨0, 0, 0⟩, voxelSize⟩ }

/-- `VoxelOctree::grow(oct)` (src/spatial.rs:62): bump the height, replace the
aabb by its parent at `oct`, and grow the base tree. -/
def grow {T} (v : VoxelOctree T) (oct : Nat) : Option (VoxelOctree T × Nat) :=
  match v.base.grow oct with
  | none => none
  | some (b, r) =>
    some ({ base := b, height := v.height + 1, voxelSize := v.voxelSize,
            aabb := v.aabb.parent oct }, r)

end VoxelOctree

/-- The `while !self.contains(p)` loop of `grow_to_contain`
(src/spatial.rs:79): each pass grows toward `!octant_of(p)`. -/
def growToContainGo {T} (p : QPoint) :
    Nat → VoxelOctree T → Bool → Option (VoxelOctree T × Bool)
  | 0, v, grew => if v.aabb.contains p then some (v, grew) else none
  | fuel + 1, v, grew =>
    if v.aabb.contains p then some (v, grew)
    else
      match v.grow (octNot (v.aabb.octantOf p)) with
      | none => none
      | some (v', _) => growToContainGo p fuel v' true

/-- `VoxelOctree::grow_to_contain(p)`: returns whether growth occurred. -/
def VoxelOctree.growToContain {T} (v : VoxelOctree T) (p : QPoint) (fuel : Nat) :
    Option (VoxelOctree T × Bool) :=
  growToContainGo p fuel v false

/-- Descent loop of `node_containing_unchecked` (src/spatial.rs:124). -/
def nodeContainingGo {T} (v : VoxelOctree T) (p : QPoint) :
    Nat → Aabb → Nat → Proxy → Nat → Option (Aabb × Nat × Proxy × Nat)
  | 0, _, _, _, _ => none
  | fuel + 1, bb, idx, prox, depth =>
    match prox.data with
    | ProxyData.branch chIdx =>
      let oc := bb.childContainingUnchecked p
      match v.base.branchData.get chIdx with
      | none => none
      | some children =>
        match children[oc.1]? with
        | none => none
        | some idx' =>
          match v.base.proxies.get idx' with
          | none => none
          | some prox' => nodeContainingGo v p fuel oc.2 idx' prox' (depth + 1)
    | _ => some (bb, idx, prox, depth)

/-- `VoxelOctree::node_containing(p)` (src/spatial.rs:108). -/
def VoxelOctree.nodeContaining {T} (v : VoxelOctree T) (p : QPoint) (fuel : Nat) :
    Option (Except SpatialError (Aabb × Nat × Proxy × Nat)) :=
  if v.aabb.contains p then
    match v.base.proxies.get v.base.root with
    | none => none
    | some rp => (nodeContainingGo v p fuel v.aabb v.base.root rp 0).map Except.ok
  else some (Except.error (SpatialError.pointOutOfBounds v.aabb p))

/-- The `while depth != self.height` loop of `insert_voxel_at`
(src/spatial.rs:165): branch the current node (propagating its error, with
any base mutations of earlier passes kept) and follow the octant containing
`p`.  `prox` tracks the updated proxy of the node just branched, as returned
by the source's `branch`. -/
def insertLoop {T} (p : QPoint) (height : Nat) :
    Nat → VoxelOctree T → Aabb → Nat → Proxy → Nat →
    Option (VoxelOctree T × Except SpatialError (Nat × Proxy))
  | 0, _, _, _, _, _ => none
  | fuel + 1, v, bb, idx, prox, depth =>
    if depth = height then some (v, Except.ok (idx, prox))
    else
      let oc := bb.childContainingUnchecked p
      match v.base.branch idx with
      | none => none
      | some (b', Except.error e) =>
        some ({ v with base := b' }, Except.error (SpatialError.octree e))
      | some (b', Except.ok children) =>
        match b'.proxies.get idx with
        | none => none
        | some prox' =>
          match children[oc.1]? with
          | none => none
          | some idx' =>
            insertLoop p height fuel { v with base := b' } oc.2 idx' prox' (depth + 1)

/-- `VoxelOctree::insert_voxel_at(p, data)` (src/spatial.rs:154): locate the
deepest node containing `p`, branch down to `height`, then `set_leaf`,
returning `(index, proxy, displaced payload)` where the displaced payload is
`Vec::pop` of what `set_leaf` reclaimed. -/
def VoxelOctree.insertVoxelAt {T} (v : VoxelOctree T) (p : QPoint) (x : T) (fuel : Nat) :
    Option (VoxelOctree T × Except SpatialError (Nat × Proxy × Option T)) :=
  match v.nodeContaining p fuel with
  | none => none
  | some (Except.error e) => some (v, Except.error e)
  | some (Except.ok (bb, idx, prox, depth)) =>
    match insertLoop p v.height fuel v bb idx prox depth with
    | none => none
    | some (v1, Except.error e) => some (v1, Except.error e)
    | some (v1, Except.ok (idxF, proxF)) =>
      match v1.base.setLeaf idxF x fuel with
      | none => none
      | some (b2, res) =>
        some ({ v1 with base := b2 }, Except.ok (idxF, proxF, res.getLast?))

/-- Submap order: every initialized slot of `a` is initialized in `b` with the
same value. -/
def SV.le' {α} (a b : SV α) : Prop := ∀ i x, a.get i = some x → b.get i = some x

/-- All three arenas of `a` are submaps of those of `b` (the state order
along `internal_merge_branch`, which only removes slots). -/
def octLe {T : Type} (a b : Octree T) : Prop :=
  SV.le' a.proxies b.proxies ∧ SV.le' a.branchData b.branchData ∧
    SV.le' a.leafData b.leafData

/-- Shortcut instance for evaluating `insert_voxel_at` results. -/
instance decEqInsertResult :
    DecidableEq (VoxelOctree Nat × Except SpatialError (Nat × Proxy × Option Nat)) :=
  instDecidableEqProd

/-! ## Concrete states used by several scenarios -/

/-- The tree `Octree::new()` followed by `branch(root)`: a branched root whose
8 children (indices 1–8) are Void. -/
def branchedRoot : Octree Nat :=
  { proxies := ⟨some ⟨0, ProxyData.branch 0⟩ :: List.replicate 8 (some ⟨0, ProxyData.void⟩)⟩,
    branchData := ⟨some [1, 2, 3, 4, 5, 6, 7, 8] :: List.replicate 7 none⟩,
    leafData := SV.new, root := 0 }

/-- The state `merge_branch(root)` leaves behind on `branchedRoot`: children
and record drained, root voided. -/
def mergedVoid : Octree Nat :=
  { proxies := ⟨some ⟨0, ProxyData.void⟩ :: List.replicate 8 none⟩,
    branchData := ⟨List.replicate 8 none⟩,
    leafData := SV.new, root := 0 }

/-- The voxel tree after `insert_voxel_at((0.5,0.5,0.5), 10)` on a fresh
`voxel_size = (1,1,1)` tree: the root became a leaf holding payload 10. -/
def s2AfterFirst : VoxelOctree Nat :=
  { base := { proxies := ⟨[some ⟨0, ProxyData.leaf 0⟩]⟩,
              branchData := SV.new,
              leafData := ⟨some 10 :: List.replicate 7 none⟩, root := 0 },
    height := 0, voxelSize := ⟨1, 1, 1⟩, aabb := ⟨⟨0, 0, 0⟩, ⟨1, 1, 1⟩⟩ }

/-- The same tree after the second insert: the leaf now holds 20. -/
def s2AfterSecond : VoxelOctree Nat :=
  { base := { proxies := ⟨[some ⟨0, ProxyData.leaf 0⟩]⟩,
              branchData := SV.new,
              leafData := ⟨some 20 :: List.replicate 7 none⟩, root := 0 },
    height := 0, voxelSize := ⟨1, 1, 1⟩, aabb := ⟨⟨0, 0, 0⟩, ⟨1, 1, 1⟩⟩ }

/-! ## Basic facts about the `SV` model -/

namespace SV

theorem get_eq_none_of_le {α} (v : SV α) {i : Nat} (h : v.cap ≤ i) : v.get i = none := by
  unfold get
  rw [List.getElem?_eq_none h]
  rfl

theorem lt_cap_of_get_some {α} {v : SV α} {i : Nat} {x : α} (h : v.get i = some x) :
    i < v.cap := by
  by_contra hc
  rw [get_eq_none_of_le v (Nat.le_of_not_lt hc)] at h
  exact Option.noConfusion h

theorem get_setSlot_self {α} (v : SV α) {i : Nat} (x : Option α) (h : i < v.cap) :
    (v.setSlot i x).get i = x := by
  unfold setSlot get
  simp only
  rw [List.getElem?_set_eq_of_lt x h]
  rfl

theorem get_setSlot_ne {α} (v : SV α) {i j : Nat} (x : Option α) (h : i ≠ j) :
    (v.setSlot i x).get j = v.get j := by
  unfold setSlot get
  simp only
  rw [List.getElem?_set_ne h]

theorem cap_setSlot {α} (v : SV α) (i : Nat) (x : Option α) :
    (v.setSlot i x).cap = v.cap := by
  unfold setSlot cap
  simp

theorem get_reserve {α} (v : SV α) (n j : Nat) : (v.reserve n).get j = v.get j := by
  unfold reserve
  split
  · rfl
  · unfold get
    simp only
    rw [List.getElem?_append]
    split
    · rfl
    · rename_i hj
      rw [List.getElem?_eq_none (l := v.slots) (Nat.le_of_not_lt hj)]
      simp [List.getElem?_replicate]
      split <;> rfl

theorem cap_reserve_of_spare_zero {α} (v : SV α) (h : v.spare = 0) :
    (v.reserve 1).cap = v.cap + 8 := by
  unfold reserve
  rw [h]
  simp only [Nat.le_zero]
  split
  · omega
  · unfold cap
    simp

theorem firstZero_some {α} {v : SV α} {i : Nat} (h : v.firstZero = some i) :
    v.get i = none ∧ i < v.cap := by
  unfold firstZero at h
  obtain ⟨hlt, hp, -⟩ := List.findIdx?_eq_some_iff_getElem.mp h
  refine ⟨?_, hlt⟩
  unfold get
  rw [List.getElem?_eq_getElem hlt]
  simpa using Option.isNone_iff_eq_none.mp hp

theorem firstZero_none {α} {v : SV α} (h : v.firstZero = none) : v.spare = 0 := by
  unfold firstZero at h
  have hall := List.findIdx?_eq_none_iff.mp h
  have : v.slots.filter Option.isSome = v.slots := by
    rw [List.filter_eq_self]
    intro a ha
    have := hall a ha
    simpa using this
  unfold spare lenInit cap
  rw [this]
  omega

theorem push_snd_fresh {α} (v : SV α) (x : α) : v.get (v.push x).2 = none := by
  unfold push
  split
  · exact get_eq_none_of_le v (Nat.le_refl _)
  · rename_i hs
    cases hz : v.firstZero with
    | none => exact absurd (firstZero_none hz) hs
    | some i =>
      simp only [hz]
      exact (firstZero_some hz).1

theorem push_get_self {α} (v : SV α) (x : α) :
    (v.push x).1.get (v.push x).2 = some x := by
  unfold push
  split
  · rename_i hs
    apply get_setSlot_self
    rw [cap_reserve_of_spare_zero v hs]
    omega
  · rename_i hs
    cases hz : v.firstZero with
    | none => exact absurd (firstZero_none hz) hs
    | some i =>
      simp only [hz]
      exact get_setSlot_self v (some x) (firstZero_some hz).2

theorem push_get_ne {α} (v : SV α) (x : α) {j : Nat} (h : j ≠ (v.push x).2) :
    (v.push x).1.get j = v.get j := by
  by_cases hs : v.spare = 0
  · have h2 : (v.push x).2 = v.cap := by unfold push; rw [if_pos hs]
    have h1 : (v.push x).1 = (v.reserve 1).setSlot v.cap (some x) := by
      unfold push; rw [if_pos hs]
    rw [h2] at h
    rw [h1, get_setSlot_ne _ _ (fun he => h he.symm), get_reserve]
  · have h2 : (v.push x).2 = v.firstZero.getD v.cap := by unfold push; rw [if_neg hs]
    have h1 : (v.push x).1 = v.setSlot (v.firstZero.getD v.cap) (some x) := by
      unfold push; rw [if_neg hs]
    rw [h2] at h
    rw [h1, get_setSlot_ne _ _ (fun he => h he.symm)]

theorem push_get_some {α} (v : SV α) (x : α) {j : Nat} {y : α}
    (h : v.get j = some y) : (v.push x).1.get j = some y := by
  rcases eq_or_ne j (v.push x).2 with he | hne
  · rw [he] at h
    rw [push_snd_fresh] at h
    exact Option.noConfusion h
  · rw [push_get_ne v x hne]
    exact h

theorem pushList_fresh {α} :
    ∀ (xs : List α) (v : SV α), ∀ i ∈ (v.pushList xs).2, v.get i = none
  | [], _, _, hi => absurd hi (List.not_mem_nil _)
  | x :: rest, v, i, hi => by
    unfold pushList at hi
    simp only [List.mem_cons] at hi
    rcases hi with rfl | hi
    · exact push_snd_fresh v x
    · have hrest := pushList_fresh rest (v.push x).1 i hi
      rcases hg : v.get i with _ | y
      · rfl
      · rw [push_get_some v x hg] at hrest
        exact Option.noConfusion hrest

theorem pushList_get_some {α} :
    ∀ (xs : List α) (v : SV α) {j : Nat} {y : α},
      v.get j = some y → (v.pushList xs).1.get j = some y
  | [], _, _, _, h => h
  | x :: rest, v, j, y, h => by
    unfold pushList
    exact pushList_get_some rest (v.push x).1 (push_get_some v x h)

theorem pushList_length {α} :
    ∀ (xs : List α) (v : SV α), (v.pushList xs).2.length = xs.length
  | [], _ => rfl
  | _ :: rest, v => by
    unfold pushList
    simp [pushList_length rest]

theorem pushList_nodup {α} :
    ∀ (xs : List α) (v : SV α), (v.pushList xs).2.Nodup
  | [], _ => List.nodup_nil
  | x :: rest, v => by
    unfold pushList
    simp only [List.nodup_cons]
    refine ⟨fun hmem => ?_, pushList_nodup rest (v.push x).1⟩
    have hfresh := pushList_fresh rest (v.push x).1 _ hmem
    rw [push_get_self v x] at hfresh
    exact Option.noConfusion hfresh

theorem pushList_replicate_get {α} (x : α) :
    ∀ (n : Nat) (v : SV α), ∀ i ∈ (v.pushList (List.replicate n x)).2,
      (v.pushList (List.replicate n x)).1.get i = some x
  | 0, _, _, hi => absurd hi (List.not_mem_nil _)
  | n + 1, v, i, hi => by
    rw [List.replicate_succ] at hi ⊢
    unfold pushList at hi ⊢
    simp only [List.mem_cons] at hi
    rcases hi with rfl | hi
    · exact pushList_get_some _ _ (push_get_self v x)
    · exact pushList_replicate_get x n (v.push x).1 i hi

theorem remove_snd {α} (v : SV α) (i : Nat) : (v.remove i).2 = v.get i := by
  unfold remove
  split <;> simp_all

theorem get_remove_self {α} (v : SV α) (i : Nat) : (v.remove i).1.get i = none := by
  unfold remove
  split
  · assumption
  · rename_i x h
    exact get_setSlot_self v none (lt_cap_of_get_some h)

theorem get_remove_ne {α} (v : SV α) {i j : Nat} (h : i ≠ j) :
    (v.remove i).1.get j = v.get j := by
  unfold remove
  split
  · rfl
  · exact get_setSlot_ne v none h

theorem le'_refl {α} (a : SV α) : le' a a := fun _ _ h => h

theorem le'_trans {α} {a b c : SV α} (h1 : le' a b) (h2 : le' b c) : le' a c :=
  fun i x h => h2 i x (h1 i x h)

theorem le'_remove {α} (v : SV α) (i : Nat) : le' (v.remove i).1 v := by
  intro j x h
  rcases eq_or_ne i j with rfl | hne
  · rw [get_remove_self] at h
    exact Option.noConfusion h
  · rw [get_remove_ne v hne] at h
    exact h

end SV

theorem branch_new_eq :
    (Octree.new (T := Nat)).branch 0 =
      some (branchedRoot, Except.ok [1, 2, 3, 4, 5, 6, 7, 8]) := by decide

/-! ## Claim C1 -/

/-- **C1.** The claim states that after any operation sequence
`proxies[root].parent == root`.  Evaluating the code: after `Octree::new()`
followed by `grow(Octant(0))` the new root is index 8, but its proxy's
`parent` field is 0 (the old root) — `grow` pushes the new root proxy with
`parent = self.root` before updating `self.root` and never rewrites it, so
the root sentinel is broken. -/
theorem C1_grow_breaks_root_sentinel :
    ((Octree.new (T := Nat)).grow 0).map
        (fun r => (r.1.root, (r.1.proxies.get r.1.root).map Proxy.parent)) =
      some (8, some 0) ∧ (8 : Nat) ≠ 0 := by decide

/-! ## Claim C2 -/

/-- **C2.** After `grow(oct)` the branch record does hold the old root at
position `oct` and the 7 new Void proxies at the other positions, but each of
the 7 new proxies (indices 1–7) has `parent = 0` (the *old* root), not the
new root index 8: they are pushed with `parent = self.root` before the new
root exists and are never updated. -/
theorem C2_grow_children_parents :
    ((Octree.new (T := Nat)).grow 0).map
        (fun r => (r.2, r.1.branchData.get 0,
          (List.range 7).map (fun i => r.1.proxies.get (i + 1)))) =
      some (8, some [0, 1, 2, 3, 4, 5, 6, 7],
        List.replicate 7 (some ⟨0, ProxyData.void⟩)) ∧
      (0 : Nat) ≠ 8 := by decide

/-! ## Claim C3 -/

/-- **C3.** The claim says `push(v)` writes into the lowest-index
uninitialized slot, grows only when no uninitialized slot exists, and leaves
previously initialized slots unchanged.  The lib/stablevec `push` instead
targets `flags.first_one()` — the lowest **initialized** slot.  From a fresh
`StableVec<u32>` (`MIN_NON_ZERO_CAP = 4`): the first push grows to capacity 4
and writes slot 3 (not slot 0, although slots 0–3 are all uninitialized); the
second push returns index 3 again, overwriting the previously initialized
slot's value 1 with 2 and leaving the count at 1. -/
theorem C3_lib_push_overwrites :
    (LVec.push 4 (LVec.new (α := Nat)) 1 =
        (⟨[none, none, none, some 1]⟩, 3)) ∧
      (LVec.push 4 (⟨[none, none, none, some 1]⟩ : LVec Nat) 2 =
        (⟨[none, none, none, some 2]⟩, 3)) ∧
      (⟨[none, none, none, some 2]⟩ : LVec Nat).count = 1 := by decide

/-! ## Claim C4 -/

/-- **C4.** The claim says `extend_from_other(other)` moves every initialized
slot of `other` and returns one map entry per initialized index.  The
lib/stablevec implementation keys its early-exit and loop bound off
`self.flags.last_one()` instead of `other`'s: with `self` empty and `other`
holding one value (`StableVec::from(&[42])`), it returns the empty map and
moves nothing, although `other.len_init() = 1`. -/
theorem C4_lib_extend_drops_everything :
    LVec.extendFromOther 4 (LVec.new (α := Nat)) ⟨[some 42]⟩ =
        some (LVec.new, []) ∧
      (⟨[some 42]⟩ : LVec Nat).count = 1 := by decide

/-! ## Claim C6 -/

unseal Rat.add Rat.mul Rat.inv Rat.sub in
/-- **C6** (counterexample).  The claim predicts
`aabb = {(−1,0,0),(1,2,2)}` (old root at octant 4) after
`grow_to_contain((−0.5, 0.5, 0.5))` on a fresh `voxel_size = (1,1,1)` tree.
The code computes `octant_of` with strict `>` on every axis, so the tied `y`
and `z` coordinates fall low: `octant_of(p) = 0`, growth uses `!0 = 7`, and
the resulting aabb is `{(−1,−1,−1),(1,1,1)}`, not the claimed box. -/
theorem C6_counterexample :
    ((VoxelOctree.new (T := Nat) ⟨1, 1, 1⟩).growToContain
          ⟨-(1/2 : ℚ), 1/2, 1/2⟩ 10).map (fun r => r.1.aabb) =
        some ⟨⟨-1, -1, -1⟩, ⟨1, 1, 1⟩⟩ ∧
      (⟨⟨-1, -1, -1⟩, ⟨1, 1, 1⟩⟩ : Aabb) ≠ ⟨⟨-1, 0, 0⟩, ⟨1, 2, 2⟩⟩ := by decide

unseal Rat.add Rat.mul Rat.inv Rat.sub in
/-- **C6** (amended).  One growth iteration occurs; afterwards
`aabb = {(−1,−1,−1),(1,1,1)}`, `height = 1`, and the old root (index 0) sits
at octant **7** of the new root's branch record. -/
theorem C6_growth_direction :
    ((VoxelOctree.new (T := Nat) ⟨1, 1, 1⟩).growToContain
        ⟨-(1/2 : ℚ), 1/2, 1/2⟩ 10).map
        (fun r => (r.2, r.1.aabb, r.1.height, r.1.base.branchData.get 0)) =
      some (true, ⟨⟨-1, -1, -1⟩, ⟨1, 1, 1⟩⟩, 1,
        some [1, 2, 3, 4, 5, 6, 7, 0]) := by decide

/-! ## Claim C7 -/

/-- **C7.** The claim says `node_point_of(node_at(np)) = np` (truncated to the
stopped depth).  On `branchedRoot` with `np = (0,0,0,1)`: `node_at` descends
to octant 0 and returns index 1, but `node_point_of(1)` scans the parent's
branch record with `.find(|&c| c == index)` and wraps the matched *value* `1`
in `Octant` instead of the match position, yielding `(0,0,1,1) ≠ (0,0,0,1)`
even though a node exists at the full requested depth. -/
theorem C7_locator_roundtrip_fails :
    branchedRoot.nodeAt ⟨0, 0, 0, 1⟩ 20 = some 1 ∧
      branchedRoot.nodePointOf 1 20 = some ⟨0, 0, 1, 1⟩ ∧
      (⟨0, 0, 1, 1⟩ : NodePoint) ≠ ⟨0, 0, 0, 1⟩ := by decide

/-! ## Claim C8 -/

theorem setProxyData_mk_eq {T : Type} (ps : SV Proxy) (bd : SV (List Nat)) (ld : SV T)
    (rt : Nat) {i : Nat} {p : Proxy} (d : ProxyData) (h : ps.get i = some p) :
    (Octree.mk ps bd ld rt).setProxyData i d =
      some (Octree.mk (ps.setSlot i (some { p with data := d })) bd ld rt) := by
  unfold Octree.setProxyData
  exact h ▸ rfl

theorem branch_eq {T : Type} {o : Octree T} {t : Nat} {p : Proxy}
    (hp : o.proxies.get t = some p) :
    o.branch t = Octree.branchOnData o t p := by
  unfold Octree.branch
  rw [hp]

theorem branchOnData_leaf {T : Type} {o : Octree T} {t l : Nat} {p : Proxy}
    (hd : p.data = ProxyData.leaf l) :
    Octree.branchOnData o t p = some (o, Except.error TreeError.branchCollision) := by
  unfold Octree.branchOnData
  rw [hd]

theorem branchOnData_branch {T : Type} {o : Octree T} {t c : Nat} {ch : List Nat} {p : Proxy}
    (hd : p.data = ProxyData.branch c) (hch : o.branchData.get c = some ch) :
    Octree.branchOnData o t p = some (o, Except.ok ch) := by
  unfold Octree.branchOnData
  rw [hd]
  show (match o.branchData.get c with
    | none => none
    | some ch => some (o, Except.ok ch)) = _
  rw [hch]

theorem branchOnData_branch_none {T : Type} {o : Octree T} {t c : Nat} {p : Proxy}
    (hd : p.data = ProxyData.branch c) (hch : o.branchData.get c = none) :
    Octree.branchOnData o t p = none := by
  unfold Octree.branchOnData
  rw [hd]
  show (match o.branchData.get c with
    | none => none
    | some ch => some (o, Except.ok ch)) = _
  rw [hch]

theorem branchOnData_voidA {T : Type} {o : Octree T} {t : Nat} {p : Proxy}
    (hd : p.data = ProxyData.void) :
    Octree.branchOnData o t p =
      (let pp := o.proxies.pushList (List.replicate 8 ⟨t, ProxyData.void⟩)
       let pb := o.branchData.push pp.2
       match ({ o with proxies := pp.1, branchData := pb.1 }).setProxyData t
           (ProxyData.branch pb.2) with
       | none => none
       | some o' => some (o', Except.ok pp.2)) := by
  unfold Octree.branchOnData
  rw [hd]

/-- The fully evaluated Void case of `branch`. -/
theorem branchOnData_void_eq {T : Type} {o : Octree T} {t : Nat} {p : Proxy}
    (hp : o.proxies.get t = some p) (hd : p.data = ProxyData.void) :
    Octree.branchOnData o t p =
      some ({ o with
          proxies := (o.proxies.pushList (List.replicate 8 ⟨t, ProxyData.void⟩)).1.setSlot t
            (some { p with data := ProxyData.branch (o.branchData.push
              (o.proxies.pushList (List.replicate 8 ⟨t, ProxyData.void⟩)).2).2 }),
          branchData := (o.branchData.push
            (o.proxies.pushList (List.replicate 8 ⟨t, ProxyData.void⟩)).2).1 },
        Except.ok (o.proxies.pushList (List.replicate 8 ⟨t, ProxyData.void⟩)).2) := by
  have hget : (o.proxies.pushList (List.replicate 8 ⟨t, ProxyData.void⟩)).1.get t = some p :=
    SV.pushList_get_some _ o.proxies hp
  have hA := branchOnData_voidA (o := o) (t := t) hd
  simp only [] at hA
  rw [setProxyData_mk_eq (o.proxies.pushList (List.replicate 8 ⟨t, ProxyData.void⟩)).1
    (o.branchData.push (o.proxies.pushList (List.replicate 8 ⟨t, ProxyData.void⟩)).2).1
    o.leafData o.root (ProxyData.branch (o.branchData.push
      (o.proxies.pushList (List.replicate 8 ⟨t, ProxyData.void⟩)).2).2) hget] at hA
  exact hA

/-- Full specification of the Void case of `branch`: 8 fresh, distinct Void
children with `parent = t`, one fresh record, the target retagged. -/
theorem branch_void_spec {T : Type} {o : Octree T} {t : Nat} {p : Proxy}
    (hp : o.proxies.get t = some p) (hd : p.data = ProxyData.void) :
    ∃ s idxs cIdx,
      o.branch t = some (s, Except.ok idxs) ∧ idxs.length = 8 ∧ idxs.Nodup ∧
      (∀ i ∈ idxs, o.proxies.get i = none) ∧
      (∀ i ∈ idxs, s.proxies.get i = some ⟨t, ProxyData.void⟩) ∧
      o.branchData.get cIdx = none ∧ s.branchData.get cIdx = some idxs ∧
      s.proxies.get t = some ⟨p.parent, ProxyData.branch cIdx⟩ ∧
      s.leafData = o.leafData ∧ s.root = o.root := by
  rw [branch_eq hp]
  have hget : (o.proxies.pushList (List.replicate 8 ⟨t, ProxyData.void⟩)).1.get t = some p :=
    SV.pushList_get_some _ o.proxies hp
  refine ⟨_, (o.proxies.pushList (List.replicate 8 ⟨t, ProxyData.void⟩)).2,
    (o.branchData.push (o.proxies.pushList (List.replicate 8 ⟨t, ProxyData.void⟩)).2).2,
    branchOnData_void_eq hp hd, ?_, SV.pushList_nodup _ _, ?_, ?_, ?_, ?_, ?_, ?_, ?_⟩
  · rw [SV.pushList_length]
    simp
  · intro i hi
    exact SV.pushList_fresh _ o.proxies i hi
  · intro i hi
    have hfresh : o.proxies.get i = none := SV.pushList_fresh _ o.proxies i hi
    have hne : t ≠ i := by
      intro he
      rw [← he, hp] at hfresh
      exact Option.noConfusion hfresh
    show ((o.proxies.pushList (List.replicate 8 ⟨t, ProxyData.void⟩)).1.setSlot t _).get i = _
    rw [SV.get_setSlot_ne _ _ hne]
    exact SV.pushList_replicate_get _ 8 o.proxies i hi
  · exact SV.push_snd_fresh o.branchData _
  · exact SV.push_get_self o.branchData _
  · show ((o.proxies.pushList (List.replicate 8 ⟨t, ProxyData.void⟩)).1.setSlot t _).get t = _
    rw [SV.get_setSlot_self _ _ (SV.lt_cap_of_get_some hget)]
  · rfl
  · rfl

set_option maxHeartbeats 800000 in
/-- **C8.** `branch(t)` on an initialized proxy `t`: it returns the
`BranchCollision` error exactly when the proxy's data is a Leaf (and then the
tree is unchanged); on an existing Branch it returns the stored record and
leaves the tree unchanged; on Void it allocates 8 fresh Void child proxies
with `parent = t`, pushes one fresh branch record holding them in order, and
retags `t` as a Branch of that record, leaving the leaf arena and root
untouched. -/
theorem C8_branch_spec {T : Type} (o : Octree T) (t : Nat) (p : Proxy)
    (hp : o.proxies.get t = some p) :
    (∀ s e, o.branch t = some (s, Except.error e) →
        e = TreeError.branchCollision ∧ s = o ∧ ∃ l, p.data = ProxyData.leaf l) ∧
    (∀ l, p.data = ProxyData.leaf l →
        o.branch t = some (o, Except.error TreeError.branchCollision)) ∧
    (∀ c ch, p.data = ProxyData.branch c → o.branchData.get c = some ch →
        o.branch t = some (o, Except.ok ch)) ∧
    (p.data = ProxyData.void → ∃ s idxs cIdx,
        o.branch t = some (s, Except.ok idxs) ∧ idxs.length = 8 ∧ idxs.Nodup ∧
        (∀ i ∈ idxs, o.proxies.get i = none) ∧
        (∀ i ∈ idxs, s.proxies.get i = some ⟨t, ProxyData.void⟩) ∧
        o.branchData.get cIdx = none ∧ s.branchData.get cIdx = some idxs ∧
        s.proxies.get t = some ⟨p.parent, ProxyData.branch cIdx⟩ ∧
        s.leafData = o.leafData ∧ s.root = o.root) := by
  have hvoid := fun hd => branch_void_spec hp hd
  rw [branch_eq hp] at hvoid ⊢
  refine ⟨?_, ?_, ?_, hvoid⟩
  · intro s e heq
    rcases hd : p.data with _ | l | c
    · obtain ⟨s', idxs, cIdx, hok, -⟩ := hvoid hd
      rw [hok] at heq
      have h := congrArg Prod.snd (Option.some.inj heq)
      exact absurd h (fun hh => Except.noConfusion hh)
    · rw [branchOnData_leaf hd] at heq
      have h := Option.some.inj heq
      exact ⟨(Except.error.inj (congrArg Prod.snd h)).symm,
        (congrArg Prod.fst h).symm, l, rfl⟩
    · rcases hch : o.branchData.get c with _ | ch
      · rw [branchOnData_branch_none hd hch] at heq
        exact Option.noConfusion heq
      · rw [branchOnData_branch hd hch] at heq
        have h := congrArg Prod.snd (Option.some.inj heq)
        exact absurd h (fun hh => Except.noConfusion hh)
  · intro l hd
    exact branchOnData_leaf hd
  · intro c ch hd hch
    exact branchOnData_branch hd hch

/-- Witness for C8 at `Octree::new()` and target 0 (a Void root). -/
theorem C8_branch_spec_witness :
    (Octree.new (T := Nat)).proxies.get 0 = some ⟨0, ProxyData.void⟩ ∧
      ((⟨0, ProxyData.void⟩ : Proxy).data = ProxyData.void → ∃ s idxs cIdx,
        (Octree.new (T := Nat)).branch 0 = some (s, Except.ok idxs) ∧
        idxs.length = 8 ∧ idxs.Nodup ∧
        (∀ i ∈ idxs, (Octree.new (T := Nat)).proxies.get i = none) ∧
        (∀ i ∈ idxs, s.proxies.get i = some ⟨0, ProxyData.void⟩) ∧
        (Octree.new (T := Nat)).branchData.get cIdx = none ∧
        s.branchData.get cIdx = some idxs ∧
        s.proxies.get 0 = some ⟨(0 : Nat), ProxyData.branch cIdx⟩ ∧
        s.leafData = (Octree.new (T := Nat)).leafData ∧
        s.root = (Octree.new (T := Nat)).root) :=
  ⟨by decide,
    (C8_branch_spec (Octree.new (T := Nat)) 0 ⟨0, ProxyData.void⟩ (by decide)).2.2.2⟩

/-! ## Claim C5: error paths -/

/-- `branch` never mutates on an error return. -/
theorem branch_error_state {T : Type} (o : Octree T) (t : Nat) :
    ∀ s e, o.branch t = some (s, Except.error e) → s = o := by
  intro s e heq
  rcases hp : o.proxies.get t with _ | p
  · unfold Octree.branch at heq
    rw [hp] at heq
    exact Option.noConfusion heq
  · rw [branch_eq hp] at heq
    rcases hd : p.data with _ | l | c
    · obtain ⟨s', idxs, cIdx, hok, -⟩ := branch_void_spec hp hd
      rw [branch_eq hp] at hok
      rw [hok] at heq
      exact absurd (congrArg Prod.snd (Option.some.inj heq))
        (fun hh => Except.noConfusion hh)
    · rw [branchOnData_leaf hd] at heq
      exact (congrArg Prod.fst (Option.some.inj heq)).symm
    · rcases hch : o.branchData.get c with _ | ch
      · rw [branchOnData_branch_none hd hch] at heq
        exact Option.noConfusion heq
      · rw [branchOnData_branch hd hch] at heq
        exact absurd (congrArg Prod.snd (Option.some.inj heq))
          (fun hh => Except.noConfusion hh)

/-- `graft` checks its target before mutating, so an error return leaves the
tree unchanged. -/
theorem graft_error_state {T : Type} (self other : Octree T) (node fuel : Nat) :
    ∀ s e, self.graft other node fuel = some (s, Except.error e) → s = self := by
  intro s e heq
  rcases hp : self.proxies.get node with _ | p
  · unfold Octree.graft at heq
    rw [hp] at heq
    exact (congrArg Prod.fst (Option.some.inj heq)).symm
  · have hgr : self.graft other node fuel =
        match p.data with
        | ProxyData.branch _ =>
          match self.graftUnchecked other node fuel with
          | none => none
          | some s' => some (s', Except.ok ())
        | _ => some (self, Except.error (TreeError.notAVoid node)) := by
      unfold Octree.graft
      rw [hp]
    rw [hgr] at heq
    rcases hd : p.data with _ | l | c
    all_goals rw [hd] at heq
    · exact (congrArg Prod.fst (Option.some.inj heq)).symm
    · exact (congrArg Prod.fst (Option.some.inj heq)).symm
    · rcases hgu : self.graftUnchecked other node fuel with _ | s'
      all_goals rw [hgu] at heq
      · exact Option.noConfusion heq
      · exact absurd (congrArg Prod.snd (Option.some.inj heq))
          (fun hh => Except.noConfusion hh)

/-- `merge_branch` leaves the tree unchanged on every error except
`NoLeafs`. -/
theorem mergeBranch_error_state {T : Type} (m : T → T → T) (o : Octree T) (b fuel : Nat) :
    ∀ s e, o.mergeBranch m b fuel = some (s, Except.error e) →
      e ≠ TreeError.noLeafs b → s = o := by
  intro s e heq hne
  rcases hp : o.proxies.get b with _ | p
  · unfold Octree.mergeBranch at heq
    rw [hp] at heq
    exact (congrArg Prod.fst (Option.some.inj heq)).symm
  · have hmb : o.mergeBranch m b fuel =
        match p.data with
        | ProxyData.branch chIdx =>
          match o.internalMergeBranch m chIdx fuel with
          | none => none
          | some (o1, some r) =>
            let pl := o1.leafData.push r
            match ({ o1 with leafData := pl.1 }).setProxyData b (ProxyData.leaf pl.2) with
            | none => none
            | some o2 => some (o2, Except.ok r)
          | some (o1, none) =>
            match o1.setProxyData b ProxyData.void with
            | none => none
            | some o2 => some (o2, Except.error (TreeError.noLeafs b))
        | _ => some (o, Except.error (TreeError.notABranch b)) := by
      unfold Octree.mergeBranch
      rw [hp]
    rcases hd : p.data with _ | l | c
    · rw [hmb, hd] at heq
      exact (congrArg Prod.fst (Option.some.inj heq)).symm
    · rw [hmb, hd] at heq
      exact (congrArg Prod.fst (Option.some.inj heq)).symm
    · have hmb2 : o.mergeBranch m b fuel =
          match o.internalMergeBranch m c fuel with
          | none => none
          | some (o1, some r) =>
            let pl := o1.leafData.push r
            match ({ o1 with leafData := pl.1 }).setProxyData b (ProxyData.leaf pl.2) with
            | none => none
            | some o2 => some (o2, Except.ok r)
          | some (o1, none) =>
            match o1.setProxyData b ProxyData.void with
            | none => none
            | some o2 => some (o2, Except.error (TreeError.noLeafs b)) := by
        rw [hmb, hd]
      rw [hmb2] at heq
      rcases him : o.internalMergeBranch m c fuel with _ | ⟨o1, _ | rr⟩
      all_goals rw [him] at heq
      all_goals simp only [] at heq
      · exact Option.noConfusion heq
      · rcases hsd : o1.setProxyData b ProxyData.void with _ | o2
        all_goals rw [hsd] at heq
        · exact Option.noConfusion heq
        · exact absurd
            (Except.error.inj (congrArg Prod.snd (Option.some.inj heq))).symm hne
      · rcases hsd : ({ o1 with leafData := (o1.leafData.push rr).1 }).setProxyData b
            (ProxyData.leaf (o1.leafData.push rr).2) with _ | o2
        all_goals rw [hsd] at heq
        · exact Option.noConfusion heq
        · exact absurd (congrArg Prod.snd (Option.some.inj heq))
            (fun hh => Except.noConfusion hh)

theorem octNew_lt (i j k : Bool) : octNew i j k < 8 := by
  cases i <;> cases j <;> cases k <;> decide

/-- `node_containing`'s descent returns an initialized, non-Branch proxy. -/
theorem nodeContainingGo_entry {T : Type} (v : VoxelOctree T) (pq : QPoint) :
    ∀ fuel bb idx prox depth bb' idx' prox' depth',
      v.base.proxies.get idx = some prox →
      nodeContainingGo v pq fuel bb idx prox depth = some (bb', idx', prox', depth') →
      v.base.proxies.get idx' = some prox' ∧ ∀ c, prox'.data ≠ ProxyData.branch c := by
  intro fuel
  induction fuel with
  | zero =>
    intro bb idx prox depth bb' idx' prox' depth' hip heq
    exact Option.noConfusion heq
  | succ n ih =>
    intro bb idx prox depth bb' idx' prox' depth' hip heq
    have hred : nodeContainingGo v pq (n + 1) bb idx prox depth =
        match prox.data with
        | ProxyData.branch chIdx =>
          let oc := bb.childContainingUnchecked pq
          match v.base.branchData.get chIdx with
          | none => none
          | some children =>
            match children[oc.1]? with
            | none => none
            | some idx2 =>
              match v.base.proxies.get idx2 with
              | none => none
              | some prox2 => nodeContainingGo v pq n oc.2 idx2 prox2 (depth + 1)
        | _ => some (bb, idx, prox, depth) := rfl
    rw [hred] at heq
    rcases hd : prox.data with _ | l | chIdx
    all_goals rw [hd] at heq
    all_goals simp only [] at heq
    · have h := Option.some.inj heq
      simp only [Prod.mk.injEq] at h
      obtain ⟨-, h2, h3, -⟩ := h
      subst h2
      subst h3
      exact ⟨hip, fun c hcd => by rw [hd] at hcd; exact ProxyData.noConfusion hcd⟩
    · have h := Option.some.inj heq
      simp only [Prod.mk.injEq] at h
      obtain ⟨-, h2, h3, -⟩ := h
      subst h2
      subst h3
      exact ⟨hip, fun c hcd => by rw [hd] at hcd; exact ProxyData.noConfusion hcd⟩
    · rcases hbd : v.base.branchData.get chIdx with _ | children
      all_goals rw [hbd] at heq
      all_goals simp only [] at heq
      · exact Option.noConfusion heq
      · rcases hce : children[(bb.childContainingUnchecked pq).1]? with _ | idx2
        all_goals rw [hce] at heq
        all_goals simp only [] at heq
        · exact Option.noConfusion heq
        · rcases hpx : v.base.proxies.get idx2 with _ | prox2
          all_goals rw [hpx] at heq
          all_goals simp only [] at heq
          · exact Option.noConfusion heq
          · exact ih _ _ _ _ _ _ _ _ hpx heq

/-- One-step unfolding of the `while depth != height` loop. -/
theorem insertLoop_succ {T : Type} (pq : QPoint) (h0 n : Nat) (v : VoxelOctree T)
    (bb : Aabb) (idx : Nat) (prox : Proxy) (depth : Nat) :
    insertLoop pq h0 (n + 1) v bb idx prox depth =
      if depth = h0 then some (v, Except.ok (idx, prox))
      else
        let oc := bb.childContainingUnchecked pq
        match v.base.branch idx with
        | none => none
        | some (b', Except.error e) =>
          some ({ v with base := b' }, Except.error (SpatialError.octree e))
        | some (b', Except.ok children) =>
          match b'.proxies.get idx with
          | none => none
          | some prox' =>
            match children[oc.1]? with
            | none => none
            | some idx' =>
              insertLoop pq h0 n { v with base := b' } oc.2 idx' prox' (depth + 1) :=
  rfl

/-- Once `insert_voxel_at` descends into a Void node, no later pass of its
loop can fail: branching a Void succeeds and its fresh children are Void. -/
theorem insertLoop_void_no_error {T : Type} (pq : QPoint) (h0 : Nat) :
    ∀ fuel (v : VoxelOctree T) bb idx prox depth pr s e,
      v.base.proxies.get idx = some pr → pr.data = ProxyData.void →
      insertLoop pq h0 fuel v bb idx prox depth = some (s, Except.error e) → False := by
  intro fuel
  induction fuel with
  | zero =>
    intro v bb idx prox depth pr s e hip hd heq
    exact Option.noConfusion heq
  | succ n ih =>
    intro v bb idx prox depth pr s e hip hd heq
    rw [insertLoop_succ] at heq
    by_cases hdep : depth = h0
    · rw [if_pos hdep] at heq
      exact Except.noConfusion (congrArg Prod.snd (Option.some.inj heq))
    · rw [if_neg hdep] at heq
      simp only [] at heq
      obtain ⟨s', idxs, cIdx, hok, hlen, hnd, hfresh, hkids, hcnone, hcsome, hgt, hld, hrt⟩ :=
        branch_void_spec hip hd
      rw [hok] at heq
      simp only [] at heq
      rw [hgt] at heq
      simp only [] at heq
      have hlt : (bb.childContainingUnchecked pq).1 < idxs.length := by
        rw [hlen]
        exact octNew_lt _ _ _
      rw [List.getElem?_eq_getElem hlt] at heq
      simp only [] at heq
      have hchild := hkids _ (List.getElem_mem hlt)
      exact ih _ _ _ _ _ _ _ _ hchild rfl heq

/-- The loop of `insert_voxel_at` mutates nothing when it returns an error:
the only failing pass is the first one, on a Leaf. -/
theorem insertLoop_error_state {T : Type} (pq : QPoint) (h0 : Nat)
    (fuel : Nat) (v : VoxelOctree T) (bb : Aabb) (idx : Nat) (prox : Proxy) (depth : Nat)
    (pr : Proxy) (s : VoxelOctree T) (e : SpatialError)
    (hip : v.base.proxies.get idx = some pr)
    (hnb : ∀ c, pr.data ≠ ProxyData.branch c)
    (heq : insertLoop pq h0 fuel v bb idx prox depth = some (s, Except.error e)) :
    s = v := by
  rcases hd : pr.data with _ | l | c
  · exact absurd heq
      (fun h => insertLoop_void_no_error pq h0 fuel v bb idx prox depth pr s e hip hd h)
  · rcases fuel with _ | n
    · exact absurd heq (fun h => Option.noConfusion h)
    · rw [insertLoop_succ] at heq
      by_cases hdep : depth = h0
      · rw [if_pos hdep] at heq
        exact absurd (congrArg Prod.snd (Option.some.inj heq))
          (fun h => Except.noConfusion h)
      · rw [if_neg hdep] at heq
        simp only [] at heq
        rw [branch_eq hip, branchOnData_leaf hd] at heq
        simp only [] at heq
        exact (congrArg Prod.fst (Option.some.inj heq)).symm
  · exact absurd hd (hnb c)

/-- `insert_voxel_at` never mutates on an error return. -/
theorem insertVoxelAt_error_state {T : Type} (v : VoxelOctree T) (pq : QPoint) (x : T)
    (fuel : Nat) : ∀ s e, v.insertVoxelAt pq x fuel = some (s, Except.error e) → s = v := by
  intro s e heq
  by_cases hc : v.aabb.contains pq
  · rcases hrp : v.base.proxies.get v.base.root with _ | rp
    · have hnc : v.nodeContaining pq fuel = none := by
        unfold VoxelOctree.nodeContaining
        rw [if_pos hc, hrp]
      unfold VoxelOctree.insertVoxelAt at heq
      rw [hnc] at heq
      exact Option.noConfusion heq
    · have hnc : v.nodeContaining pq fuel =
          (nodeContainingGo v pq fuel v.aabb v.base.root rp 0).map Except.ok := by
        unfold VoxelOctree.nodeContaining
        rw [if_pos hc, hrp]
      unfold VoxelOctree.insertVoxelAt at heq
      rw [hnc] at heq
      rcases hgo : nodeContainingGo v pq fuel v.aabb v.base.root rp 0 with
        _ | ⟨bb, idx, prox, depth⟩
      all_goals rw [hgo] at heq
      all_goals simp only [Option.map_some', Option.map_none'] at heq
      · exact Option.noConfusion heq
      · obtain ⟨hip, hnb⟩ :=
          nodeContainingGo_entry v pq fuel v.aabb v.base.root rp 0 bb idx prox depth hrp hgo
        rcases hil : insertLoop pq v.height fuel v bb idx prox depth with _ | ⟨v1, r1⟩
        all_goals rw [hil] at heq
        all_goals try simp only [] at heq
        · exact Option.noConfusion heq
        · rcases r1 with e1 | ⟨idxF, proxF⟩
          · simp only [] at heq
            have hv1 : v1 = v :=
              insertLoop_error_state pq v.height fuel v bb idx prox depth prox v1 e1
                hip hnb hil
            rw [← hv1]
            exact (congrArg Prod.fst (Option.some.inj heq)).symm
          · simp only [] at heq
            rcases hsl : v1.base.setLeaf idxF x fuel with _ | ⟨b2, res⟩
            all_goals rw [hsl] at heq
            all_goals simp only [] at heq
            · exact Option.noConfusion heq
            · exact absurd (congrArg Prod.snd (Option.some.inj heq))
                (fun h => Except.noConfusion h)
  · have hnc : v.nodeContaining pq fuel =
        some (Except.error (SpatialError.pointOutOfBounds v.aabb pq)) := by
      unfold VoxelOctree.nodeContaining
      rw [if_neg hc]
    unfold VoxelOctree.insertVoxelAt at heq
    rw [hnc] at heq
    simp only [] at heq
    exact (congrArg Prod.fst (Option.some.inj heq)).symm

/-- **C5** (amended).  Every modelled tree operation that can both mutate and
return an error — `branch`, `graft`, `merge_branch`, `insert_voxel_at` —
leaves the tree exactly as it was whenever it returns an error, with the one
exception of `merge_branch`'s `NoLeafs`, which drains the subtree and voids
the target before returning the error. -/
theorem C5_error_state_preserved {T : Type} (m : T → T → T) (o other : Octree T)
    (t node b fuel : Nat) (v : VoxelOctree T) (pq : QPoint) (x : T) :
    (∀ s e, o.branch t = some (s, Except.error e) → s = o) ∧
    (∀ s e, o.graft other node fuel = some (s, Except.error e) → s = o) ∧
    (∀ s e, o.mergeBranch m b fuel = some (s, Except.error e) →
        e ≠ TreeError.noLeafs b → s = o) ∧
    (∀ s e, v.insertVoxelAt pq x fuel = some (s, Except.error e) → s = v) :=
  ⟨branch_error_state o t, graft_error_state o other node fuel,
   mergeBranch_error_state m o b fuel, insertVoxelAt_error_state v pq x fuel⟩

/-- **C5** (counterexample).  The claim as stated — no error path mutates —
fails: on a tree whose root is a branch with 8 Void children,
`merge_branch(root)` returns the `NoLeafs(0)` error yet leaves a different
state (children and record removed, root voided). -/
theorem C5_counterexample :
    branchedRoot.mergeBranch Nat.max 0 20 =
        some (mergedVoid, Except.error (TreeError.noLeafs 0)) ∧
      mergedVoid ≠ branchedRoot := by decide

unseal Rat.add Rat.mul Rat.inv Rat.sub in
/-- Witness for the amended C5 at concrete error-returning calls. -/
theorem C5_error_state_preserved_witness :
    (s2AfterFirst.base.branch 0 =
        some (s2AfterFirst.base, Except.error TreeError.branchCollision)) ∧
    (branchedRoot.graft Octree.new 9 20 =
        some (branchedRoot, Except.error (TreeError.invalidIndex 9))) ∧
    (branchedRoot.mergeBranch Nat.max 3 20 =
        some (branchedRoot, Except.error (TreeError.notABranch 3))) ∧
    ((VoxelOctree.new (T := Nat) ⟨1, 1, 1⟩).insertVoxelAt ⟨2, 2, 2⟩ 5 20 =
        some (VoxelOctree.new ⟨1, 1, 1⟩,
          Except.error (SpatialError.pointOutOfBounds ⟨⟨0, 0, 0⟩, ⟨1, 1, 1⟩⟩ ⟨2, 2, 2⟩))) ∧
    s2AfterFirst.base = s2AfterFirst.base ∧
    branchedRoot = branchedRoot ∧
    (VoxelOctree.new (T := Nat) ⟨1, 1, 1⟩) = VoxelOctree.new ⟨1, 1, 1⟩ ∧
    branchedRoot = branchedRoot :=
  ⟨by decide, by decide, by decide, by decide,
   (C5_error_state_preserved Nat.max s2AfterFirst.base s2AfterFirst.base 0 0 0 20
      (VoxelOctree.new ⟨1, 1, 1⟩) ⟨2, 2, 2⟩ 5).1 s2AfterFirst.base
      TreeError.branchCollision (by decide),
   (C5_error_state_preserved Nat.max branchedRoot Octree.new 0 9 3 20
      (VoxelOctree.new ⟨1, 1, 1⟩) ⟨2, 2, 2⟩ 5).2.1 branchedRoot
      (TreeError.invalidIndex 9) (by decide),
   (C5_error_state_preserved Nat.max branchedRoot Octree.new 0 9 3 20
      (VoxelOctree.new ⟨1, 1, 1⟩) ⟨2, 2, 2⟩ 5).2.2.2 (VoxelOctree.new ⟨1, 1, 1⟩)
      (SpatialError.pointOutOfBounds ⟨⟨0, 0, 0⟩, ⟨1, 1, 1⟩⟩ ⟨2, 2, 2⟩) (by decide),
   (C5_error_state_preserved Nat.max branchedRoot Octree.new 0 9 3 20
      (VoxelOctree.new ⟨1, 1, 1⟩) ⟨2, 2, 2⟩ 5).2.2.1 branchedRoot
      (TreeError.notABranch 3) (by decide) (by decide)⟩

/-! ## Claim C10: merge_branch on a leafless subtree -/

theorem SV.le'_none {α} {a b : SV α} (hab : SV.le' a b) {i : Nat}
    (hb : b.get i = none) : a.get i = none := by
  rcases h : a.get i with _ | x
  · rfl
  · have := hab i x h
    rw [hb] at this
    exact Option.noConfusion this

theorem octLe_refl {T : Type} (a : Octree T) : octLe a a :=
  ⟨SV.le'_refl _, SV.le'_refl _, SV.le'_refl _⟩

theorem octLe_trans {T : Type} {a b c : Octree T} (h1 : octLe a b) (h2 : octLe b c) :
    octLe a c :=
  ⟨SV.le'_trans h1.1 h2.1, SV.le'_trans h1.2.1 h2.2.1, SV.le'_trans h1.2.2 h2.2.2⟩

theorem mergeGo_zero {T : Type} (m : T → T → T) (o : Octree T) (cs : List Nat)
    (res : Option T) : mergeGo m 0 o cs res = none := rfl

theorem mergeGo_nil {T : Type} (m : T → T → T) (n : Nat) (o : Octree T) (res : Option T) :
    mergeGo m (n + 1) o [] res = some (o, res) := rfl

theorem mergeGo_cons {T : Type} (m : T → T → T) (n : Nat) (o : Octree T) (c : Nat)
    (rest : List Nat) (res : Option T) :
    mergeGo m (n + 1) o (c :: rest) res =
      match o.proxies.remove c with
      | (_, none) => none
      | (ps, some pr) =>
        let o1 : Octree T := { o with proxies := ps }
        match pr.data with
        | ProxyData.void => mergeGo m n o1 rest res
        | ProxyData.leaf l =>
          match o1.leafData.remove l with
          | (_, none) => none
          | (ld, some t) =>
            mergeGo m n { o1 with leafData := ld } rest
              (some (match res with | some r => m r t | none => t))
        | ProxyData.branch b =>
          match o1.branchData.remove b with
          | (_, none) => none
          | (bd, some kids) =>
            match mergeGo m n { o1 with branchData := bd } kids none with
            | none => none
            | some (o2, none) => mergeGo m n o2 rest res
            | some (o2, some d) =>
              mergeGo m n o2 rest
                (some (match res with | some r => m r d | none => d)) := rfl

theorem scanGo_zero {T : Type} (o₀ : Octree T) (cs : List Nat) :
    scanGo o₀ 0 cs = none := rfl

theorem scanGo_nil {T : Type} (o₀ : Octree T) (n : Nat) :
    scanGo o₀ (n + 1) [] = some ([], [], false) := rfl

theorem scanGo_cons {T : Type} (o₀ : Octree T) (n : Nat) (c : Nat) (rest : List Nat) :
    scanGo o₀ (n + 1) (c :: rest) =
      match o₀.proxies.get c with
      | none => none
      | some pr =>
        match pr.data with
        | ProxyData.void =>
          (scanGo o₀ n rest).map (fun r => (c :: r.1, r.2.1, r.2.2))
        | ProxyData.leaf _ =>
          (scanGo o₀ n rest).map (fun r => (c :: r.1, r.2.1, true))
        | ProxyData.branch b =>
          match o₀.branchData.get b with
          | none => none
          | some kids =>
            match scanGo o₀ n kids with
            | none => none
            | some (pk, bk, hk) =>
              match scanGo o₀ n rest with
              | none => none
              | some (ps, bs, hl) =>
                some (c :: (pk ++ ps), b :: (bk ++ bs), hk || hl) := rfl

set_option maxHeartbeats 1600000 in
/-- Central invariant of `internal_merge_branch`: relative to the original
tree `o₀`, a successful `mergeGo` run returns a shrunken tree in which every
proxy index and branch-record index listed by `scanGo` has been removed, and
it returns `none` (no merged value) exactly when the accumulator was empty
and no leaf was seen. -/
theorem mergeGo_scan {T : Type} (m : T → T → T) (o₀ : Octree T) :
    ∀ fuel (o : Octree T) cs res o' out,
      octLe o o₀ →
      mergeGo m fuel o cs res = some (o', out) →
      octLe o' o ∧
      ∃ ps bs hl, scanGo o₀ fuel cs = some (ps, bs, hl) ∧
        (out = none ↔ (res = none ∧ hl = false)) ∧
        (∀ i ∈ ps, o'.proxies.get i = none) ∧
        (∀ j ∈ bs, o'.branchData.get j = none) := by
  intro fuel
  induction fuel with
  | zero =>
    intro o cs res o' out hle heq
    rw [mergeGo_zero] at heq
    exact Option.noConfusion heq
  | succ n ih =>
    intro o cs res o' out hle heq
    rcases cs with _ | ⟨c, rest⟩
    · rw [mergeGo_nil] at heq
      have h := Option.some.inj heq
      have h1 : o = o' := congrArg Prod.fst h
      have h2 : res = out := congrArg Prod.snd h
      subst h1
      subst h2
      rw [scanGo_nil]
      exact ⟨octLe_refl o, [], [], false, rfl, by simp, by simp, by simp⟩
    · rw [mergeGo_cons] at heq
      rcases hrem : o.proxies.remove c with ⟨ps0, _ | pr⟩
      all_goals rw [hrem] at heq
      all_goals simp only [] at heq
      · exact Option.noConfusion heq
      have hgetc : o.proxies.get c = some pr := by
        have hx := SV.remove_snd o.proxies c
        rw [hrem] at hx
        exact hx.symm
      have hps1 : ps0 = (o.proxies.remove c).1 := by rw [hrem]
      have h0c : o₀.proxies.get c = some pr := hle.1 c pr hgetc
      have hle1 : octLe ({ o with proxies := ps0 } : Octree T) o := by
        refine ⟨?_, SV.le'_refl _, SV.le'_refl _⟩
        show SV.le' ps0 o.proxies
        rw [hps1]
        exact SV.le'_remove o.proxies c
      have hcnone : ps0.get c = none := by
        rw [hps1]
        exact SV.get_remove_self o.proxies c
      rw [scanGo_cons, h0c]
      simp only []
      rcases hd : pr.data with _ | l | b
      all_goals rw [hd] at heq
      all_goals simp only [] at heq
      · -- Void child
        obtain ⟨hle2, ps', bs', hl, hscan, hiff, hpr, hbr⟩ :=
          ih _ rest res o' out (octLe_trans hle1 hle) heq
        refine ⟨octLe_trans hle2 hle1, c :: ps', bs', hl, ?_, hiff, ?_, hbr⟩
        · rw [hscan]
          rfl
        · intro i hi
          rcases List.mem_cons.mp hi with rfl | hi
          · exact SV.le'_none hle2.1 hcnone
          · exact hpr i hi
      · -- Leaf child
        rcases hlrem : o.leafData.remove l with ⟨ld, _ | tl⟩
        all_goals rw [hlrem] at heq
        all_goals simp only [] at heq
        · exact Option.noConfusion heq
        have hle1' : octLe ({ o with proxies := ps0, leafData := ld } : Octree T) o := by
          refine ⟨?_, SV.le'_refl _, ?_⟩
          · show SV.le' ps0 o.proxies
            rw [hps1]
            exact SV.le'_remove o.proxies c
          · show SV.le' ld o.leafData
            have hld1 : ld = (o.leafData.remove l).1 := by rw [hlrem]
            rw [hld1]
            exact SV.le'_remove o.leafData l
        obtain ⟨hle2, ps', bs', hl, hscan, hiff, hpr, hbr⟩ :=
          ih _ rest _ o' out (octLe_trans hle1' hle) heq
        refine ⟨octLe_trans hle2 hle1', c :: ps', bs', true, ?_, ?_, ?_, hbr⟩
        · rw [hscan]
          rfl
        · refine iff_of_false (fun ho => ?_) (fun hcon => Bool.noConfusion hcon.2)
          exact Option.noConfusion (hiff.mp ho).1
        · intro i hi
          rcases List.mem_cons.mp hi with rfl | hi
          · exact SV.le'_none hle2.1 hcnone
          · exact hpr i hi
      · -- Branch child
        rcases hbrem : o.branchData.remove b with ⟨bd, _ | kids⟩
        all_goals rw [hbrem] at heq
        all_goals simp only [] at heq
        · exact Option.noConfusion heq
        have hgetb : o.branchData.get b = some kids := by
          have hx := SV.remove_snd o.branchData b
          rw [hbrem] at hx
          exact hx.symm
        have h0b : o₀.branchData.get b = some kids := hle.2.1 b kids hgetb
        simp only []
        rw [h0b]
        simp only []
        have hbd1 : bd = (o.branchData.remove b).1 := by rw [hbrem]
        have hle1' : octLe ({ o with proxies := ps0, branchData := bd } : Octree T) o := by
          refine ⟨?_, ?_, SV.le'_refl _⟩
          · show SV.le' ps0 o.proxies
            rw [hps1]
            exact SV.le'_remove o.proxies c
          · show SV.le' bd o.branchData
            rw [hbd1]
            exact SV.le'_remove o.branchData b
        have hbnone : bd.get b = none := by
          rw [hbd1]
          exact SV.get_remove_self o.branchData b
        rcases hmk : mergeGo m n { o with proxies := ps0, branchData := bd } kids none with
          _ | ⟨o2, outK⟩
        all_goals rw [hmk] at heq
        all_goals try simp only [] at heq
        · exact Option.noConfusion heq
        obtain ⟨hle2, pk, bk, hk, hscanK, hiffK, hprK, hbrK⟩ :=
          ih _ kids none o2 outK (octLe_trans hle1' hle) hmk
        rw [hscanK]
        simp only []
        rcases outK with _ | d
        · -- subtree produced nothing
          have hkf : hk = false := (hiffK.mp rfl).2
          obtain ⟨hle3, ps', bs', hl, hscanR, hiffR, hprR, hbrR⟩ :=
            ih _ rest res o' out (octLe_trans hle2 (octLe_trans hle1' hle)) heq
          refine ⟨octLe_trans hle3 (octLe_trans hle2 hle1'),
            c :: (pk ++ ps'), b :: (bk ++ bs'), hk || hl, ?_, ?_, ?_, ?_⟩
          · rw [hscanR]
          · rw [hkf, Bool.false_or]
            exact hiffR
          · intro i hi
            rcases List.mem_cons.mp hi with rfl | hi
            · exact SV.le'_none hle3.1 (SV.le'_none hle2.1 hcnone)
            · rcases List.mem_append.mp hi with hi | hi
              · exact SV.le'_none hle3.1 (hprK i hi)
              · exact hprR i hi
          · intro j hj
            rcases List.mem_cons.mp hj with rfl | hj
            · exact SV.le'_none hle3.2.1 (SV.le'_none hle2.2.1 hbnone)
            · rcases List.mem_append.mp hj with hj | hj
              · exact SV.le'_none hle3.2.1 (hbrK j hj)
              · exact hbrR j hj
        · -- subtree produced a value d
          have hkt : hk = true := by
            cases hkv : hk
            · exact absurd (hiffK.mpr ⟨rfl, hkv⟩) (fun hh => Option.noConfusion hh)
            · rfl
          obtain ⟨hle3, ps', bs', hl, hscanR, hiffR, hprR, hbrR⟩ :=
            ih _ rest _ o' out (octLe_trans hle2 (octLe_trans hle1' hle)) heq
          refine ⟨octLe_trans hle3 (octLe_trans hle2 hle1'),
            c :: (pk ++ ps'), b :: (bk ++ bs'), hk || hl, ?_, ?_, ?_, ?_⟩
          · rw [hscanR]
          · rw [hkt, Bool.true_or]
            refine iff_of_false (fun ho => ?_) (fun hcon => Bool.noConfusion hcon.2)
            exact Option.noConfusion (hiffR.mp ho).1
          · intro i hi
            rcases List.mem_cons.mp hi with rfl | hi
            · exact SV.le'_none hle3.1 (SV.le'_none hle2.1 hcnone)
            · rcases List.mem_append.mp hi with hi | hi
              · exact SV.le'_none hle3.1 (hprK i hi)
              · exact hprR i hi
          · intro j hj
            rcases List.mem_cons.mp hj with rfl | hj
            · exact SV.le'_none hle3.2.1 (SV.le'_none hle2.2.1 hbnone)
            · rcases List.mem_append.mp hj with hj | hj
              · exact SV.le'_none hle3.2.1 (hbrK j hj)
              · exact hbrR j hj

set_option maxHeartbeats 800000 in
/-- **C10.** When the subtree hanging below a Branch proxy `b` contains no
leaf, `merge_branch(b)` removes every descendant proxy and every descendant
branch record from the arenas, sets `proxies[b].data` to Void, and returns
`Err(NoLeafs(b))` -- the mutations happen even though an error is returned.
`scanGo` enumerates the descendants of `b`'s children list read-only; the
`false` flag states no leaf occurs among them. -/
theorem C10_merge_noleafs_mutates {T : Type} (m : T → T → T) (o : Octree T)
    (b ch fuel : Nat) (pr : Proxy) (kids ps bs : List Nat)
    (o' : Octree T) (resE : Except TreeError T)
    (hb : o.proxies.get b = some pr)
    (hd : pr.data = ProxyData.branch ch)
    (hk : o.branchData.get ch = some kids)
    (hscan : scanGo o fuel kids = some (ps, bs, false))
    (hmerge : o.mergeBranch m b fuel = some (o', resE)) :
    resE = Except.error (TreeError.noLeafs b) ∧
    o'.proxies.get b = some ⟨pr.parent, ProxyData.void⟩ ∧
    (∀ i ∈ ps, o'.proxies.get i = none) ∧
    (∀ j ∈ bs, o'.branchData.get j = none) ∧
    o'.branchData.get ch = none := by
  have hmb : o.mergeBranch m b fuel =
      match o.internalMergeBranch m ch fuel with
      | none => none
      | some (o1, some r) =>
        let pl := o1.leafData.push r
        match ({ o1 with leafData := pl.1 }).setProxyData b (ProxyData.leaf pl.2) with
        | none => none
        | some o2 => some (o2, Except.ok r)
      | some (o1, none) =>
        match o1.setProxyData b ProxyData.void with
        | none => none
        | some o2 => some (o2, Except.error (TreeError.noLeafs b)) := by
    have hmb0 : o.mergeBranch m b fuel =
        match pr.data with
        | ProxyData.branch chIdx =>
          match o.internalMergeBranch m chIdx fuel with
          | none => none
          | some (o1, some r) =>
            let pl := o1.leafData.push r
            match ({ o1 with leafData := pl.1 }).setProxyData b (ProxyData.leaf pl.2) with
            | none => none
            | some o2 => some (o2, Except.ok r)
          | some (o1, none) =>
            match o1.setProxyData b ProxyData.void with
            | none => none
            | some o2 => some (o2, Except.error (TreeError.noLeafs b))
        | _ => some (o, Except.error (TreeError.notABranch b)) := by
      unfold Octree.mergeBranch
      rw [hb]
    rw [hmb0, hd]
  rcases hbrem : o.branchData.remove ch with ⟨bd, okids⟩
  have hok : okids = some kids := by
    have hx := SV.remove_snd o.branchData ch
    rw [hbrem, hk] at hx
    exact hx
  subst hok
  have hbd1 : bd = (o.branchData.remove ch).1 := by rw [hbrem]
  have hchnone : bd.get ch = none := by
    rw [hbd1]
    exact SV.get_remove_self o.branchData ch
  have him : o.internalMergeBranch m ch fuel =
      mergeGo m fuel ({ o with branchData := bd } : Octree T) kids none := by
    unfold Octree.internalMergeBranch
    rw [hbrem]
  have hle1 : octLe ({ o with branchData := bd } : Octree T) o := by
    refine ⟨SV.le'_refl _, ?_, SV.le'_refl _⟩
    show SV.le' bd o.branchData
    rw [hbd1]
    exact SV.le'_remove o.branchData ch
  rcases hmg : mergeGo m fuel ({ o with branchData := bd } : Octree T) kids none with
    _ | ⟨o2, out⟩
  · rw [hmb, him, hmg] at hmerge
    exact Option.noConfusion hmerge
  · obtain ⟨hle2, ps', bs', hl, hscan', hiff, hpr, hbr⟩ :=
      mergeGo_scan m o fuel ({ o with branchData := bd } : Octree T) kids none o2 out
        hle1 hmg
    rw [hscan] at hscan'
    have hps : ps' = ps ∧ bs' = bs ∧ hl = false := by
      have hx := Option.some.inj hscan'.symm
      simp only [Prod.mk.injEq] at hx
      exact ⟨hx.1, hx.2.1, hx.2.2⟩
    obtain ⟨hpse, hbse, hle0⟩ := hps
    subst hpse
    subst hbse
    have hout : out = none := hiff.mpr ⟨rfl, hle0⟩
    subst hout
    rw [hmb, him, hmg] at hmerge
    simp only [] at hmerge
    rcases hq : o2.proxies.get b with _ | q
    · unfold Octree.setProxyData at hmerge
      rw [hq] at hmerge
      exact Option.noConfusion hmerge
    · have hq2 : q = pr := by
        have hx : o.proxies.get b = some q := hle2.1 b q hq
        rw [hb] at hx
        exact (Option.some.inj hx).symm
      rw [hq2] at hq
      have hsd : o2.setProxyData b ProxyData.void =
          some { o2 with proxies := o2.proxies.setSlot b (some { pr with data := ProxyData.void }) } := by
        unfold Octree.setProxyData
        rw [hq]
      rw [hsd] at hmerge
      simp only [] at hmerge
      have h := Option.some.inj hmerge
      have h1 : _ = o' := congrArg Prod.fst h
      have h2 := congrArg Prod.snd h
      refine ⟨h2.symm, ?_, ?_, ?_, ?_⟩
      · rw [← h1]
        show (o2.proxies.setSlot b _).get b = _
        rw [SV.get_setSlot_self _ _ (SV.lt_cap_of_get_some hq)]
      · intro i hi
        have hne : b ≠ i := by
          intro he
          rw [← he] at hi
          have := hpr b hi
          rw [hq] at this
          exact Option.noConfusion this
        rw [← h1]
        show (o2.proxies.setSlot b _).get i = _
        rw [SV.get_setSlot_ne _ _ hne]
        exact hpr i hi
      · intro j hj
        rw [← h1]
        exact hbr j hj
      · rw [← h1]
        exact SV.le'_none hle2.2.1 hchnone

theorem C10_merge_noleafs_witness :
    branchedRoot.proxies.get 0 = some ⟨0, ProxyData.branch 0⟩ ∧
    branchedRoot.branchData.get 0 = some [1, 2, 3, 4, 5, 6, 7, 8] ∧
    scanGo branchedRoot 20 [1, 2, 3, 4, 5, 6, 7, 8] =
      some ([1, 2, 3, 4, 5, 6, 7, 8], [], false) ∧
    branchedRoot.mergeBranch Nat.max 0 20 =
      some (mergedVoid, Except.error (TreeError.noLeafs 0)) ∧
    ((Except.error (TreeError.noLeafs 0) : Except TreeError Nat) =
        Except.error (TreeError.noLeafs 0) ∧
      mergedVoid.proxies.get 0 = some ⟨0, ProxyData.void⟩ ∧
      (∀ i ∈ [1, 2, 3, 4, 5, 6, 7, 8], mergedVoid.proxies.get i = none) ∧
      (∀ j ∈ ([] : List Nat), mergedVoid.branchData.get j = none) ∧
      mergedVoid.branchData.get 0 = none) :=
  ⟨by decide, by decide, by decide, by decide,
   C10_merge_noleafs_mutates Nat.max branchedRoot 0 0 20 ⟨0, ProxyData.branch 0⟩
     [1, 2, 3, 4, 5, 6, 7, 8] [1, 2, 3, 4, 5, 6, 7, 8] [] mergedVoid
     (Except.error (TreeError.noLeafs 0))
     (by decide) rfl (by decide) (by decide) (by decide)⟩


/-! ## Claim C9 -/

unseal Rat.add Rat.mul Rat.inv Rat.sub in
/-- **C9.** Scenario S2: on a fresh `voxel_size = (1,1,1)` tree the first
`insert_voxel_at((0.5,0.5,0.5), 10)` displaces nothing, the second insert of
20 at the same point displaces `Some(10)`, and the depth-first leaf iterator
then yields exactly `[((0,0,0,0), 20)]`. -/
theorem C9_repeated_insert :
    ((VoxelOctree.new (T := Nat) ⟨1, 1, 1⟩).insertVoxelAt ⟨1/2, 1/2, 1/2⟩ 10 20 =
        some (s2AfterFirst, Except.ok (0, ⟨0, ProxyData.void⟩, none))) ∧
      (s2AfterFirst.insertVoxelAt ⟨1/2, 1/2, 1/2⟩ 20 20 =
        some (s2AfterSecond, Except.ok (0, ⟨0, ProxyData.leaf 0⟩, some 10))) ∧
      s2AfterSecond.base.leafDfi 20 = some [(20, ⟨0, 0, 0, 0⟩)] := by decide

end Eightfold
